import Mathlib

/-!
Verification development for the SimpleEnvs-Python repository.

The definitions below are a shallow embedding of the Python sources
(`simpleenvs/constants.py`, `simpleenvs/secure.py`, `simpleenvs/exceptions.py`,
`simpleenvs_python/utils.py`, `simpleenvs/loaders/simple.py`).  Python strings
are modeled by Lean `String` (a list of Unicode characters); `str` methods such
as `strip`, `lower`, `isdigit`, `isalnum` are modeled over their ASCII/common
Unicode behavior; machine integers do not occur (Python ints are unbounded, and
the 64-bit range checks of the source are explicit comparisons, modeled the same
way over `Int`).  Exceptions are modeled with `Except`/error codes, and the
process state (the loader object's private fields, plus `os.environ`) is passed
explicitly.
-/

deriving instance DecidableEq for Except

namespace SimpleEnvs

/-! ## Character classes (models of Python `str` predicates) -/

/-- Model of the character set stripped by Python `str.strip()` (Unicode
whitespace, identified by code point). -/
def pyIsSpace (c : Char) : Bool :=
  let n := c.toNat
  n == 32 || (9 ≤ n && n ≤ 13) || (28 ≤ n && n ≤ 31) || n == 133 || n == 160 ||
  n == 5760 || (8192 ≤ n && n ≤ 8202) || n == 8232 || n == 8233 || n == 8239 ||
  n == 8287 || n == 12288

/-- Model of the line boundaries recognized by Python `str.splitlines()`:
`\n`, `\v`, `\f`, `\r`, FS/GS/RS (0x1c-0x1e), NEL (0x85), LS, PS. -/
def isLineBreak (c : Char) : Bool :=
  let n := c.toNat
  (10 ≤ n && n ≤ 13) || (28 ≤ n && n ≤ 30) || n == 133 || n == 8232 || n == 8233

/-- ASCII decimal digit; models Python `str.isdigit` restricted to ASCII
(Python additionally accepts other Unicode digit characters). -/
def isAsciiDigit (c : Char) : Bool :=
  48 ≤ c.toNat && c.toNat ≤ 57

/-- ASCII letter. -/
def isAsciiAlpha (c : Char) : Bool :=
  (65 ≤ c.toNat && c.toNat ≤ 90) || (97 ≤ c.toNat && c.toNat ≤ 122)

/-- ASCII letter or digit; models Python `str.isalnum` restricted to ASCII. -/
def isAsciiAlnum (c : Char) : Bool :=
  isAsciiAlpha c || isAsciiDigit c

/-! ## String helpers (models of Python `str` operations) -/

/-- Substring containment on character lists: Python's `needle in haystack`. -/
def containsSub (needle : List Char) : List Char → Bool
  | [] => needle.isEmpty
  | c :: rest => needle.isPrefixOf (c :: rest) || containsSub needle rest

/-- Python `needle in haystack` on strings. -/
def strContains (haystack needle : String) : Bool :=
  containsSub needle.data haystack.data

/-- Python `s.startswith(p)`. -/
def strStarts (s p : String) : Bool :=
  p.data.isPrefixOf s.data

/-- Python `s.endswith(p)`. -/
def strEnds (s p : String) : Bool :=
  p.data.isSuffixOf s.data

/-- Strip `pyIsSpace` characters from both ends of a character list. -/
def stripChars (l : List Char) : List Char :=
  ((l.dropWhile pyIsSpace).reverse.dropWhile pyIsSpace).reverse

/-- Python `s.strip()`. -/
def pyStrip (s : String) : String :=
  String.mk (stripChars s.data)

/-- Python `s.lower()` (ASCII case folding, which is all the source's
comparison sets need). -/
def pyLower (s : String) : String :=
  String.mk (s.data.map Char.toLower)

/-- Python `s.isdigit()`: nonempty and all digits. -/
def pyIsDigit (s : String) : Bool :=
  !s.data.isEmpty && s.data.all isAsciiDigit

/-- Python `s.isalnum()`: nonempty and all alphanumeric. -/
def pyIsAlnum (s : String) : Bool :=
  !s.data.isEmpty && s.data.all isAsciiAlnum

/-- Numeric value of a list of ASCII digit characters (most significant
first), as accumulated by Python `int`. -/
def parseNatChars (l : List Char) : Nat :=
  l.foldl (fun acc c => acc * 10 + (c.toNat - 48)) 0

/-- Python `int(s)` for a string already known to satisfy
`s.isdigit() or (s.startswith('-') and s[1:].isdigit())`. -/
def pyIntOfDigitish (s : String) : Int :=
  if strStarts s "-" then -(parseNatChars (s.data.drop 1) : Int)
  else (parseNatChars s.data : Int)

/-- Python `int(s)` as a total function: `some n` when the conversion
succeeds (after stripping whitespace, an optional sign and ASCII digits;
the rarely-used underscore grouping of numeric literals is not modeled),
`none` when `int` raises `ValueError`. -/
def pyIntOpt (s : String) : Option Int :=
  let t := (pyStrip s).data
  match t with
  | '-' :: ds => if !ds.isEmpty && ds.all isAsciiDigit then some (-(parseNatChars ds : Int)) else none
  | '+' :: ds => if !ds.isEmpty && ds.all isAsciiDigit then some (parseNatChars ds : Int) else none
  | ds => if !ds.isEmpty && ds.all isAsciiDigit then some (parseNatChars ds : Int) else none

/-- Acceptance predicate of Python `float(s)` for the inputs reachable from
the parser's float branch (which requires a `'.'` in the string): an optional
sign, digits around a single dot (with at least one digit), and an optional
exponent.  Exotic accepted spellings (underscore grouping, `inf`/`nan`) never
reach this branch. -/
def pyFloatAccepts (s : String) : Bool :=
  let body := match s.data with
    | '-' :: rest => rest
    | '+' :: rest => rest
    | rest => rest
  let (mantissa, expPart) := body.span (fun c => c ≠ 'e' ∧ c ≠ 'E')
  let (intPart, rest) := mantissa.span (fun c => c ≠ '.')
  let mantOk := match rest with
    | '.' :: frac =>
        (intPart.all isAsciiDigit && frac.all isAsciiDigit) &&
        (!intPart.isEmpty || !frac.isEmpty) && !frac.any (· = '.')
    | _ => false
  let expOk := match expPart with
    | [] => true
    | _ :: expDigits =>
        let expBody := match expDigits with
          | '-' :: rest => rest
          | '+' :: rest => rest
          | rest => rest
        !expBody.isEmpty && expBody.all isAsciiDigit
  mantOk && expOk

/-! ## Constants (`simpleenvs/constants.py`) -/

def MAX_KEY_LENGTH : Nat := 128
def MAX_VALUE_LENGTH : Nat := 1024
def MAX_LINE_LENGTH : Nat := 4096
def MAX_FILE_SIZE : Nat := 10 * 1024 * 1024
def MAX_SCAN_DEPTH : Nat := 3

def INT64_MIN : Int := -(2 ^ 63)
def INT64_MAX : Int := 2 ^ 63 - 1

def TRUE_VALUES : List String :=
  ["true", "yes", "1", "on", "enable", "enabled", "active", "ok", "y", "t"]

def FALSE_VALUES : List String :=
  ["false", "no", "0", "off", "disable", "disabled", "inactive", "n", "f",
   "null", "none", ""]

def DANGEROUS_PATTERNS : List String :=
  ["$(", "`", "$\x7b", "<!--", "<script", "</script>", "<iframe",
   "javascript:", "data:", "vbscript:", "onload=", "onerror=", "eval(",
   "exec(", "__import__", "subprocess", "os.system", "shell=True"]

def SCRIPT_PATTERNS : List String :=
  ["<script", "</script>", "javascript:", "vbscript:"]

/-! ## Data model -/

/-- `EnvValue`: the tagged union of values a parse can produce.  The source's
type alias is `Union[str, int, bool]` (plus `float` from the utils parser's
float branch); `float` carries the raw matched text, since no claim inspects a
float's numeric value and the loaders never compare floats. -/
inductive EnvValue where
  | bool (b : Bool)
  | int (n : Int)
  | float (raw : String)
  | str (s : String)
deriving Repr, DecidableEq

/-- Error taxonomy (`simpleenvs/exceptions.py` plus the Python builtins the
source raises).  `fileParsing` wraps the original error, as the source's
`FileParsingError(file_path, original_error=e)` does. -/
inductive Err where
  | pathTraversal (path : String)
  | invalidInput (msg : String)
  | fileSize (path : String)
  | fileNotFound (msg : String)
  | typeConversion (value : String) (target : String)
  | osError
  | fileParsing (path : String) (orig : Err)
deriving Repr, DecidableEq

/-! ## Value parsing -/

/-- Model of `utils.parse_env_value(value, strict=False)` — the default mode,
and the one `SimpleEnvLoader` uses.  Precedence as in the source: empty
string short-circuit, TRUE_VALUES, FALSE_VALUES, integer with 64-bit range
check (out of range returned as the string), float when a `'.'` is present,
otherwise string (the UTF-8 re-encoding of a Lean string never fails). -/
def parse_env_value (value : String) : EnvValue :=
  let v := pyStrip value
  if v = "" then .str ""
  else if TRUE_VALUES.contains (pyLower v) then .bool true
  else if FALSE_VALUES.contains (pyLower v) then .bool false
  else if pyIsDigit v || (strStarts v "-" && pyIsDigit (String.mk (v.data.drop 1))) then
    let num := pyIntOfDigitish v
    if INT64_MIN ≤ num ∧ num ≤ INT64_MAX then .int num
    else .str v
  else if strContains v "." then
    if pyFloatAccepts v then .float v
    else .str v
  else .str v

/-- Model of `SecureEnvLoader.__parse_value_secure`.  Same shape as
`parse_env_value` but with no empty-string short-circuit and no float
branch. -/
def parse_value_secure (value : String) : EnvValue :=
  let v := pyStrip value
  if TRUE_VALUES.contains (pyLower v) then .bool true
  else if FALSE_VALUES.contains (pyLower v) then .bool false
  else if pyIsDigit v || (strStarts v "-" && pyIsDigit (String.mk (v.data.drop 1))) then
    let num := pyIntOfDigitish v
    if INT64_MIN ≤ num ∧ num ≤ INT64_MAX then .int num
    else .str v
  else .str v

/-! ## Association-list model of Python `dict`

`dict.get`, `d[k] = v` (updating in place preserves the key's position,
appending otherwise), and truthiness. -/

def dictGet {α : Type} (m : List (String × α)) (k : String) : Option α :=
  match m with
  | [] => none
  | p :: rest => if p.1 = k then some p.2 else dictGet rest k

def hasKey {α : Type} (m : List (String × α)) (k : String) : Bool :=
  (dictGet m k).isSome

def dictSet {α : Type} (m : List (String × α)) (k : String) (v : α) :
    List (String × α) :=
  if hasKey m k then m.map (fun p => if p.1 = k then (k, v) else p)
  else m ++ [(k, v)]

/-! ## Splitting content into lines (Python `str.splitlines`) -/

/-- Worker for `splitLines`: `acc` holds the current line's characters in
reverse.  A `\r\n` pair counts as a single boundary, and a boundary at the
very end of the input starts no further line. -/
def splitLinesGo (acc : List Char) : List Char → List (List Char)
  | [] => [acc.reverse]
  | c :: cs =>
    if isLineBreak c then
      if c = '\r' && cs.head? == some '\n' then
        match cs with
        | [] => [acc.reverse]
        | _ :: cs' =>
          match cs' with
          | [] => [acc.reverse]
          | _ :: _ => acc.reverse :: splitLinesGo [] cs'
      else
        match cs with
        | [] => [acc.reverse]
        | _ :: _ => acc.reverse :: splitLinesGo [] cs
    else
      splitLinesGo (c :: acc) cs

/-- Python `content.splitlines()`: no trailing empty line for content ending
in a line boundary, and `[]` for empty content. -/
def splitLines (l : List Char) : List (List Char) :=
  match l with
  | [] => []
  | _ => splitLinesGo [] l

/-! ## Secure loader state (`SecureEnvLoader`'s private fields) -/

/-- One entry of the access journal.  The source also records a timestamp and
the session id; those fields never influence control flow and are omitted. -/
structure LogEntry where
  operation : String
  key : Option String
  success : Bool
  access_count : Nat
deriving Repr, DecidableEq

/-- The private state of a `SecureEnvLoader`: `__env_data`, `__file_hashes`,
`__access_log`, `__access_count`. -/
structure SecureState where
  env_data : List (String × EnvValue)
  file_hashes : List (String × String)
  access_log : List LogEntry
  access_count : Nat
deriving Repr, DecidableEq

/-- A fresh loader's state. -/
def initialState : SecureState := ⟨[], [], [], 0⟩

/-- `SecureEnvLoader.__log_access`: increment the counter, append an entry,
keep only the last 100 entries. -/
def log_access (st : SecureState) (operation : String) (key : Option String)
    (success : Bool) : SecureState :=
  let count := st.access_count + 1
  let log := st.access_log ++ [⟨operation, key, success, count⟩]
  { st with
      access_count := count,
      access_log := if log.length > 100 then log.drop (log.length - 100) else log }

/-- The file system as the loader observes it.  Each field models one of the
`Path`/`open` queries the source makes; `content` is the decoded text of the
file (with `decodeOk` false when reading as UTF-8 raises
`UnicodeDecodeError`), and `scanResult` abstracts the outcome of
`__scan_directory_secure("./", ...)` — `.error` when the scan raises,
`.ok none` when no `.env` file is found. -/
structure FileSystem where
  pathExists : String → Bool
  isFile : String → Bool
  isSymlink : String → Bool
  size : String → Nat
  readable : String → Bool
  decodeOk : String → Bool
  content : String → String
  scanResult : Except Err (Option String)

/-- `SecureEnvLoader.__calculate_file_hash`.  SHA-256 is modeled as an
injective function of the content (the identity): the loader only ever
compares hashes for equality, and the specification treats the hash as
collision-free. -/
def calculate_file_hash (content : String) : String := content

/-! ## Security validators (`secure.py`) -/

/-- `SecureEnvLoader.__validate_path_security`.  Note which failures log and
which error class each branch raises. -/
def validate_path_security (st : SecureState) (path : String) :
    SecureState × Except Err Unit :=
  if path = "" then (st, .error (.invalidInput "Invalid path type"))
  else if strContains path ".." || strStarts path "/" then
    (log_access st "path_validation" (some path) false,
     .error (.pathTraversal path))
  else if strContains path "\x00" then
    (st, .error (.invalidInput "Null byte in path"))
  else if path.length > 1024 then
    (st, .error (.invalidInput "Path too long"))
  else
    (log_access st "path_validation" (some path) true, .ok ())

/-- `SecureEnvLoader.__validate_file_security`: existence, regular file,
symlink, empty-file and size checks, then hash computation (whose `open` can
raise `OSError` on an unreadable file) and storage into `__file_hashes`. -/
def validate_file_security (st : SecureState) (fs : FileSystem)
    (path : String) : SecureState × Except Err Unit :=
  if !fs.pathExists path then
    (st, .error (.fileNotFound path))
  else if !fs.isFile path then
    (st, .error (.invalidInput "Path is not a file"))
  else if fs.isSymlink path then
    (st, .error (.invalidInput "Symbolic links not allowed"))
  else if fs.size path = 0 then
    (st, .error (.invalidInput "Empty file"))
  else if fs.size path > MAX_FILE_SIZE then
    (st, .error (.fileSize path))
  else if !fs.readable path then
    (st, .error .osError)
  else
    ({ st with
        file_hashes :=
          dictSet st.file_hashes path (calculate_file_hash (fs.content path)) },
     .ok ())

/-- `SecureEnvLoader.__validate_content_security_batch`: null byte first,
then the dangerous patterns, then the (redundant) script patterns, all
against the lowercased content.  The offending pattern is not reproduced in
the message, since Python iterates a `set` in unspecified order. -/
def validate_content_security_batch (content : String) : Except Err Unit :=
  let lower := pyLower content
  if strContains content "\x00" then
    .error (.invalidInput "Null byte detected in file content")
  else if DANGEROUS_PATTERNS.any (fun p => strContains lower p) then
    .error (.invalidInput "Dangerous pattern detected")
  else if SCRIPT_PATTERNS.any (fun p => strContains lower p) then
    .error (.invalidInput "Script injection pattern detected")
  else .ok ()

/-- `SecureEnvLoader.__validate_key_value`: empty/overlong key, the
`isalnum`-after-removing-`_`/`-` key character check, overlong value, and the
dangerous patterns against the lowercased value. -/
def validate_key_value (key value : String) : Except Err Unit :=
  if key = "" || pyStrip key = "" then .error (.invalidInput "Empty key")
  else if key.length > MAX_KEY_LENGTH then
    .error (.invalidInput "Key too long")
  else if !pyIsAlnum (String.mk (key.data.filter (fun c => c != '_' && c != '-'))) then
    .error (.invalidInput "Key contains invalid characters")
  else if value.length > MAX_VALUE_LENGTH then
    .error (.invalidInput "Value too long")
  else if DANGEROUS_PATTERNS.any (fun p => strContains (pyLower value) p) then
    .error (.invalidInput "Potentially dangerous pattern")
  else .ok ()

/-! ## Secure parsing pipeline -/

/-- Quote stripping in `__parse_file_secure`: one matching wrapping pair,
with no minimum-length guard (Python's `value[1:-1]` maps the one-character
string `"` to the empty string, as does this model). -/
def stripQuotesSecure (v : String) : String :=
  if (strStarts v "\"" && strEnds v "\"") || (strStarts v "'" && strEnds v "'") then
    String.mk ((v.data.drop 1).dropLast)
  else v

/-- Python `line.partition("=")` restricted to the parts around the first
`'='` (the source only calls it after checking `'=' in line`). -/
def partitionEq (l : List Char) : List Char × List Char :=
  let p := l.span (fun c => c != '=')
  (p.1, p.2.tail)

/-- The per-line loop of `__parse_file_secure`: line-count guard, overlong
lines skipped, blank/comment lines skipped, lines without `'='` skipped,
split on the first `'='`, strip, quote-strip, key/value validation, typed
value parse, last-write-wins insertion. -/
def process_lines (count : Nat) (acc : List (String × EnvValue)) :
    List String → Except Err (List (String × EnvValue))
  | [] => .ok acc
  | line :: rest =>
    let count := count + 1
    if count > 10000 then .error (.invalidInput "Too many lines in file")
    else if line.length > MAX_LINE_LENGTH then process_lines count acc rest
    else
      let l := pyStrip line
      if l = "" || strStarts l "#" then process_lines count acc rest
      else if !strContains l "=" then process_lines count acc rest
      else
        let kv := partitionEq l.data
        let key := pyStrip (String.mk kv.1)
        let value := stripQuotesSecure (pyStrip (String.mk kv.2))
        match validate_key_value key value with
        | .error e => .error e
        | .ok _ =>
          process_lines count (dictSet acc key (parse_value_secure value)) rest

/-- `SecureEnvLoader.__parse_file_secure`: path validation, file validation
(storing the hash), decode, whole-content batch validation, line processing.
Validation errors raised inside the source's `try` block — including the
batch check's `InvalidInputError` — are wrapped in `FileParsingError`; the
`UnicodeDecodeError` handler re-raises `InvalidInputError` unwrapped. -/
def parse_file_secure (st : SecureState) (fs : FileSystem) (path : String) :
    SecureState × Except Err (List (String × EnvValue)) :=
  match validate_path_security st path with
  | (st1, .error e) => (st1, .error e)
  | (st1, .ok _) =>
    match validate_file_security st1 fs path with
    | (st2, .error e) => (st2, .error e)
    | (st2, .ok _) =>
      if !fs.decodeOk path then
        (st2, .error (.invalidInput "Invalid UTF-8 encoding in file"))
      else
        match validate_content_security_batch (fs.content path) with
        | .error e =>
          (log_access st2 "file_parse" (some path) false,
           .error (.fileParsing path e))
        | .ok _ =>
          match process_lines 0 []
              ((splitLines (fs.content path).data).map String.mk) with
          | .error e =>
            (log_access st2 "file_parse" (some path) false,
             .error (.fileParsing path e))
          | .ok env =>
            (log_access st2 "file_parse" (some path) true, .ok env)

/-- `LoadOptions` (`secure.py`). -/
structure LoadOptions where
  path : Option String := none
  max_depth : Nat := 2
  strict_validation : Bool := true

/-- Which file `load_secure` will parse: the explicit path when given,
otherwise the directory-scan outcome (`FileNotFoundError` when the scan
finds nothing). -/
def resolve_path (fs : FileSystem) (options : LoadOptions) :
    Except Err String :=
  match options.path with
  | some p => .ok p
  | none =>
    match fs.scanResult with
    | .error e => .error e
    | .ok none => .error (.fileNotFound "No .env file found")
    | .ok (some p) => .ok p

/-- `SecureEnvLoader.load_secure`: parse the resolved file, and only on full
success replace `__env_data` with the new map (then log `load_complete`);
any error logs `load_failed` and is re-raised. -/
def load_secure (st : SecureState) (fs : FileSystem) (options : LoadOptions) :
    SecureState × Option Err :=
  match resolve_path fs options with
  | .error e => (log_access st "load_failed" none false, some e)
  | .ok p =>
    match parse_file_secure st fs p with
    | (st1, .error e) => (log_access st1 "load_failed" none false, some e)
    | (st1, .ok env) =>
      (log_access { st1 with env_data := env } "load_complete" none true, none)

/-! ## Secure accessors -/

/-- `SecureEnvLoader.is_loaded`: Python truthiness of the private dict. -/
def is_loaded (st : SecureState) : Bool :=
  !st.env_data.isEmpty

/-- `SecureEnvLoader.get_secure`: journal the access, return the entry. -/
def get_secure (st : SecureState) (key : String) :
    SecureState × Option EnvValue :=
  (log_access st "get" (some key) (hasKey st.env_data key),
   dictGet st.env_data key)

/-- `SecureEnvLoader.get_int_secure`.  In Python `bool` is a subclass of
`int`, so the source's `isinstance(value, int)` branch also accepts stored
booleans and returns them (numerically 1 and 0); stored strings go through
`int(value)` with the caller's default on `ValueError`. -/
def get_int_secure (st : SecureState) (key : String) (default : Option Int) :
    SecureState × Option Int :=
  let gr := get_secure st key
  match gr.2 with
  | none => (gr.1, default)
  | some (.bool b) => (gr.1, some (if b then 1 else 0))
  | some (.int n) => (gr.1, some n)
  | some (.str s) =>
    (gr.1, match pyIntOpt s with
           | some n => some n
           | none => default)
  | some (.float _) => (gr.1, default)

/-- `SecureEnvLoader.verify_file_integrity`: untracked paths return false;
for tracked paths the hash is recomputed inside a `try` whose blanket
`except Exception: return False` catches both the `OSError` of an unreadable
file and the `IntegrityError` the source itself raises on a hash mismatch —
so a mismatch yields `false` rather than a propagated error. -/
def verify_file_integrity (st : SecureState) (fs : FileSystem)
    (path : String) : Bool :=
  match dictGet st.file_hashes path with
  | none => false
  | some expected =>
    if !fs.readable path then false
    else if calculate_file_hash (fs.content path) ≠ expected then false
    else true

/-! ## Rendering values back to text (Python `str(value)` and the export
utilities of `simpleenvs_python/utils.py`) -/

/-- Decimal digits of a natural number, most significant first (the digits
Python `str` prints); `fuel` bounds the recursion depth and is never
exhausted when it starts at `n` itself. -/
def natCharsF : Nat → Nat → List Char
  | 0, n => [Char.ofNat (48 + n % 10)]
  | fuel + 1, n =>
    if n < 10 then [Char.ofNat (48 + n)]
    else natCharsF fuel (n / 10) ++ [Char.ofNat (48 + n % 10)]

/-- Decimal digits of a natural number, most significant first. -/
def natChars (n : Nat) : List Char :=
  natCharsF n n

/-- Python `str` of an `int`. -/
def intToString (n : Int) : String :=
  if n < 0 then String.mk ('-' :: natChars n.natAbs)
  else String.mk (natChars n.natAbs)

/-- Python `str(value)` for an `EnvValue` (`str(True)` is `"True"`).  For the
float constructor the raw matched text stands in for `str(float)`'s
normalized rendering; no claim exercises it. -/
def pyStr : EnvValue → String
  | .bool true => "True"
  | .bool false => "False"
  | .int n => intToString n
  | .float raw => raw
  | .str s => s

/-- `value.replace('"', '\\"')` from `utils.export_to_env_format`. -/
def escapeQuotes (s : String) : String :=
  String.mk ((s.data.map (fun c => if c = '"' then ['\\', '"'] else [c])).flatten)

/-- One line of `utils.export_to_env_format`: string values containing a
space or a quote are wrapped in double quotes with inner double quotes
escaped; everything else is printed bare via `str`. -/
def export_line (key : String) : EnvValue → String
  | .str s =>
    if strContains s " " || strContains s "\"" || strContains s "'" then
      key ++ "=\"" ++ escapeQuotes s ++ "\""
    else key ++ "=" ++ s
  | v => key ++ "=" ++ pyStr v

/-- Python `"\n".join(lines)`. -/
def joinLines : List String → String
  | [] => ""
  | [l] => l
  | l :: rest => l ++ "\n" ++ joinLines rest

/-- `utils.export_to_env_format`: lines for the entries in sorted key order,
joined by newlines.  (Python sorts the `(key, value)` items; dict keys are
unique, so the order is the key order.) -/
def export_to_env_format (m : List (String × EnvValue)) : String :=
  joinLines
    ((m.insertionSort (fun a b => a.1 ≤ b.1)).map (fun p => export_line p.1 p.2))

/-! ## Utils-layer parsing (`simpleenvs_python/utils.py`) -/

/-- Quote stripping in `utils.parse_env_line`, which unlike the secure parser
guards with `len(value) >= 2`. -/
def stripQuotesUtils (v : String) : String :=
  if 2 ≤ v.data.length then
    if (strStarts v "\"" && strEnds v "\"") || (strStarts v "'" && strEnds v "'") then
      String.mk ((v.data.drop 1).dropLast)
    else v
  else v

/-- `utils.parse_env_line(line, strict=False)`: `none` for skipped lines
(blank, comment, no `'='`, empty key), otherwise the key and parsed value.
In non-strict mode no validation runs and `parse_env_value` is total, so the
function never raises. -/
def parse_env_line (line : String) : Option (String × EnvValue) :=
  let l := pyStrip line
  if l = "" || strStarts l "#" then none
  else if !strContains l "=" then none
  else
    let kv := partitionEq l.data
    let key := pyStrip (String.mk kv.1)
    let value := pyStrip (String.mk kv.2)
    if key = "" then none
    else some (key, parse_env_value (stripQuotesUtils value))

/-- `utils.parse_env_content(content, strict=False)`: fold the parsed lines
into a dict, last write wins. -/
def parse_env_content (content : String) : List (String × EnvValue) :=
  ((splitLines content.data).map String.mk).foldl
    (fun m line =>
      match parse_env_line line with
      | none => m
      | some kv => dictSet m kv.1 kv.2) []

/-- The language of `[a-zA-Z][a-zA-Z0-9_-]*` over a whole character list. -/
def keyPatternCore : List Char → Bool
  | [] => false
  | c :: rest =>
    isAsciiAlpha c && rest.all (fun d => isAsciiAlnum d || d == '_' || d == '-')

/-- `re.match(r"^[a-zA-Z][a-zA-Z0-9_-]*$", key)` of
`utils.validate_key_format`: in Python `re`, `$` (without `re.MULTILINE`)
matches at the end of the string or just before one newline at the end, so a
key ending in a single `'\n'` matches whenever the part before it does. -/
def keyPatternMatch (k : String) : Bool :=
  if k.data.getLast? = some '\x0a' then keyPatternCore k.data.dropLast
  else keyPatternCore k.data

/-- `utils.validate_key_format`: strict mode checks the regex; relaxed mode
rejects only `'='`, newlines and null bytes. -/
def validate_key_format (key : String) (strict : Bool) : Except Err Unit :=
  if key = "" then .error (.invalidInput "Key must be non-empty string")
  else if strict then
    if !keyPatternMatch key then
      .error (.invalidInput "Key contains invalid characters")
    else .ok ()
  else
    if key.data.any (fun c => c == '=' || c == '\n' || c == '\r' || c == '\x00') then
      .error (.invalidInput "Key contains dangerous characters")
    else .ok ()

/-! ## Simple loader (`simpleenvs/loaders/simple.py`) -/

/-- `os.environ.update({k: str(v) for k, v in env_data.items()})`. -/
def osUpdate (vars : List (String × String)) (m : List (String × EnvValue)) :
    List (String × String) :=
  m.foldl (fun e p => dictSet e p.1 (pyStr p.2)) vars

/-- `SimpleEnvLoader`'s state is just its public `env_data` dict. -/
structure SimpleState where
  env_data : List (String × EnvValue)
deriving Repr, DecidableEq

/-- `SimpleEnvLoader._parse_file`: existence check, read (the latin-1
fallback makes decoding total, so only an unreadable file fails, wrapped as
`FileParsingError`), then `parse_env_content` in non-strict mode. -/
def simple_parse_file (fs : FileSystem) (path : String) :
    Except Err (List (String × EnvValue)) :=
  if !fs.pathExists path then .error (.fileNotFound path)
  else if !fs.readable path then .error (.fileParsing path .osError)
  else .ok (parse_env_content (fs.content path))

/-- The simple scan (`utils.find_env_files`, first match) abstracted as an
input, like the secure scan. -/
structure SimpleScan where
  result : Option String

/-- Which file `SimpleEnvLoader.load` parses: the explicit path when given
(after the existence check), otherwise the scan's first find. -/
def simple_resolve (fs : FileSystem) (scan : SimpleScan)
    (path : Option String) : Except Err String :=
  match path with
  | some p => if fs.pathExists p then .ok p else .error (.fileNotFound p)
  | none =>
    match scan.result with
    | some p => .ok p
    | none => .error (.fileNotFound "No .env file found in directory tree")

/-- `SimpleEnvLoader.load`: depth check, resolve the file, parse it, then
update `env_data` and sync every parsed pair, stringified, into the global
environment table.  Returns the new loader state, the new `os.environ`, and
the error if any. -/
def simple_load (st : SimpleState) (osEnviron : List (String × String))
    (fs : FileSystem) (scan : SimpleScan) (path : Option String)
    (max_depth : Int) : SimpleState × List (String × String) × Option Err :=
  if max_depth < 0 || max_depth > (MAX_SCAN_DEPTH : Int) then
    (st, osEnviron, some (.invalidInput "max_depth out of range"))
  else
    match simple_resolve fs scan path with
    | .error e => (st, osEnviron, some e)
    | .ok p =>
      match simple_parse_file fs p with
      | .error e => (st, osEnviron, some e)
      | .ok env => (⟨env⟩, osUpdate osEnviron env, none)

/-- `SecureEnvLoader.load_secure` run alongside the global environment
table: the source's secure path never reads or writes `os.environ`
(`# Atomic update of internal data (NO sync to os.environ!)`), so the table
is threaded through unchanged. -/
def load_secure_with_os (st : SecureState) (osEnviron : List (String × String))
    (fs : FileSystem) (options : LoadOptions) :
    SecureState × List (String × String) × Option Err :=
  let r := load_secure st fs options
  (r.1, osEnviron, r.2)

/-! ## Concrete inputs and predicates used to settle the claims -/

/-- A file system whose every path is a readable, non-symlink regular file of
nonzero size holding `c`. -/
def constFS (c : String) : FileSystem :=
  { pathExists := fun _ => true
    isFile := fun _ => true
    isSymlink := fun _ => false
    size := fun _ => (c.length + 1)
    readable := fun _ => true
    decodeOk := fun _ => true
    content := fun _ => c
    scanResult := .ok none }

/-- Whether a result is a top-level (unwrapped) `InvalidInputError`. -/
def isInvalidInputErr {α : Type} : Except Err α → Bool
  | .error (.invalidInput _) => true
  | _ => false

/-- Keys whose exported line survives re-parsing unchanged: nonempty, stable
under `strip`, free of `'='` and line boundaries, and not starting the line
as a comment. -/
def goodKey (k : String) : Bool :=
  !k.data.isEmpty &&
  (pyStrip k == k) &&
  !k.data.any (fun c => c == '=' || isLineBreak c) &&
  !(strStarts k "#")

/-- String values whose exported form re-parses to the same string: ASCII
only (on ASCII text the ASCII models of `str.isdigit`/`str.lower` coincide
with Python's Unicode-aware ones, so no non-ASCII digit spelling can slip
into the integer branch), stable under `strip`, free of double quotes and
line boundaries, and (unless empty) not spelled like a boolean, an integer,
or a float. -/
def goodStrVal (s : String) : Bool :=
  s.data.all (fun c => c.toNat < 128) &&
  (pyStrip s == s) &&
  !s.data.any (fun c => c == '"' || isLineBreak c) &&
  ((s == "") ||
    (!(TRUE_VALUES.contains (pyLower s) || FALSE_VALUES.contains (pyLower s)) &&
     !(pyIsDigit s || (strStarts s "-" && pyIsDigit (String.mk (s.data.drop 1)))) &&
     !s.data.any (fun c => c == '.')))

/-- Values for which export followed by re-parse is the identity: booleans
always round-trip (`str(True)` is `"True"`, which re-parses as a member of
TRUE_VALUES); integers must be in the 64-bit range and distinct from 0 and 1
(whose decimal spellings are members of the boolean sets); strings as in
`goodStrVal`. -/
def GoodValue : EnvValue → Prop
  | .bool _ => True
  | .int n => INT64_MIN ≤ n ∧ n ≤ INT64_MAX ∧ n ≠ 0 ∧ n ≠ 1
  | .float _ => False
  | .str s => goodStrVal s = true

/-! # Shared lemmas: association lists -/

theorem dictSet_cons_ne {α : Type} (p : String × α) (rest : List (String × α))
    (k : String) (v : α) (h : p.1 ≠ k) :
    dictSet (p :: rest) k v = p :: dictSet rest k v := by
  unfold dictSet hasKey
  simp only [dictGet, if_neg h]
  split
  · simp [if_neg h]
  · simp

theorem dictSet_cons_eq {α : Type} (p : String × α) (rest : List (String × α))
    (k : String) (v : α) (h : p.1 = k) :
    dictSet (p :: rest) k v =
      (k, v) :: rest.map (fun q => if q.1 = k then (k, v) else q) := by
  unfold dictSet hasKey
  simp [dictGet, if_pos h, h]

theorem dictSet_fresh {α : Type} (m : List (String × α)) (k : String) (v : α)
    (h : hasKey m k = false) : dictSet m k v = m ++ [(k, v)] := by
  unfold dictSet
  simp [h]

theorem dictGet_map_set_ne {α : Type} (m : List (String × α)) (k k' : String)
    (v : α) (h : k' ≠ k) :
    dictGet (m.map (fun q => if q.1 = k then (k, v) else q)) k' = dictGet m k' := by
  induction m with
  | nil => rfl
  | cons q rest ih =>
    by_cases hq : q.1 = k
    · simp only [List.map, if_pos hq, dictGet]
      rw [if_neg (by exact fun hc => h hc.symm), if_neg (by rw [hq]; exact fun hc => h hc.symm)]
      exact ih
    · simp only [List.map, if_neg hq, dictGet]
      split
      · rfl
      · exact ih

theorem dictGet_dictSet_self {α : Type} (m : List (String × α)) (k : String)
    (v : α) : dictGet (dictSet m k v) k = some v := by
  induction m with
  | nil => simp [dictSet, hasKey, dictGet]
  | cons p rest ih =>
    by_cases hp : p.1 = k
    · rw [dictSet_cons_eq p rest k v hp]
      simp [dictGet]
    · rw [dictSet_cons_ne p rest k v hp]
      simp only [dictGet, if_neg hp]
      exact ih

theorem dictGet_dictSet_ne {α : Type} (m : List (String × α)) (k k' : String)
    (v : α) (h : k' ≠ k) : dictGet (dictSet m k v) k' = dictGet m k' := by
  induction m with
  | nil =>
    show dictGet [(k, v)] k' = dictGet [] k'
    simp only [dictGet]
    rw [if_neg (Ne.symm h)]
  | cons p rest ih =>
    by_cases hp : p.1 = k
    · rw [dictSet_cons_eq p rest k v hp]
      simp only [dictGet]
      rw [if_neg (by exact fun hc => h hc.symm), if_neg (by rw [hp]; exact fun hc => h hc.symm)]
      exact dictGet_map_set_ne rest k k' v h
    · rw [dictSet_cons_ne p rest k v hp]
      simp only [dictGet]
      split
      · rfl
      · exact ih

/-! # Shared lemmas: the secure pipeline and the private state -/

theorem log_access_env_data (st : SecureState) (op : String)
    (key : Option String) (s : Bool) :
    (log_access st op key s).env_data = st.env_data := rfl

theorem log_access_file_hashes (st : SecureState) (op : String)
    (key : Option String) (s : Bool) :
    (log_access st op key s).file_hashes = st.file_hashes := rfl

theorem validate_path_security_env_data (st : SecureState) (path : String) :
    (validate_path_security st path).1.env_data = st.env_data := by
  unfold validate_path_security
  split
  · rfl
  · split
    · rfl
    · split
      · rfl
      · split <;> rfl

theorem validate_file_security_env_data (st : SecureState) (fs : FileSystem)
    (path : String) :
    (validate_file_security st fs path).1.env_data = st.env_data := by
  unfold validate_file_security
  split
  · rfl
  · split
    · rfl
    · split
      · rfl
      · split
        · rfl
        · split
          · rfl
          · split <;> rfl

theorem parse_file_secure_env_data (st : SecureState) (fs : FileSystem)
    (path : String) :
    (parse_file_secure st fs path).1.env_data = st.env_data := by
  have hv := validate_path_security_env_data st path
  unfold parse_file_secure
  split
  · rename_i st1 e heq
    rw [heq] at hv
    exact hv
  · rename_i st1 u heq
    rw [heq] at hv
    have hf := validate_file_security_env_data st1 fs path
    split
    · rename_i st2 e heq2
      rw [heq2] at hf
      show st2.env_data = st.env_data
      rw [show st2.env_data = st1.env_data from hf, hv]
    · rename_i st2 u2 heq2
      rw [heq2] at hf
      have h2 : st2.env_data = st.env_data := by
        rw [show st2.env_data = st1.env_data from hf, hv]
      split
      · exact h2
      · split
        · exact h2
        · split
          · exact h2
          · exact h2

/-! # C2 -/

/-- C2: a `load_secure` call that fails with any error leaves the store's
environment map exactly as it was; a successful call replaces the map as a
whole by the newly parsed map. -/
theorem load_secure_atomic_update (st : SecureState) (fs : FileSystem)
    (options : LoadOptions) :
    (∀ e, (load_secure st fs options).2 = some e →
       (load_secure st fs options).1.env_data = st.env_data) ∧
    ((load_secure st fs options).2 = none →
       ∃ p env, resolve_path fs options = .ok p ∧
         (parse_file_secure st fs p).2 = .ok env ∧
         (load_secure st fs options).1.env_data = env) := by
  unfold load_secure
  cases hr : resolve_path fs options with
  | error e =>
    refine ⟨fun e' _ => ?_, fun hc => by simp at hc⟩
    exact log_access_env_data st "load_failed" none false
  | ok p =>
    cases hp : parse_file_secure st fs p with
    | mk st1 r =>
      have h1 : st1.env_data = st.env_data := by
        have h2 := parse_file_secure_env_data st fs p
        rw [hp] at h2
        exact h2
      cases r with
      | error e =>
        constructor
        · intro e' _
          simp only [hp]
          show (log_access st1 "load_failed" none false).env_data = st.env_data
          rw [log_access_env_data]
          exact h1
        · intro hc
          simp only [hp] at hc
          simp at hc
      | ok env =>
        constructor
        · intro e' he'
          simp only [hp] at he'
          simp at he'
        · intro _
          refine ⟨p, env, rfl, by rw [hp], ?_⟩
          simp only [hp]
          rw [log_access_env_data]

/-- Witness for C2 at a concrete failing input: the dangerous content is
rejected and the map is unchanged. -/
theorem load_secure_atomic_update_witness :
    (load_secure initialState (constFS "A=$(x)\x0a") { path := some "ok.env" }).2
      = some (.fileParsing "ok.env" (.invalidInput "Dangerous pattern detected")) ∧
    (load_secure initialState (constFS "A=$(x)\x0a") { path := some "ok.env" }).1.env_data
      = initialState.env_data := by
  refine ⟨by decide, ?_⟩
  exact (load_secure_atomic_update initialState (constFS "A=$(x)\x0a")
    { path := some "ok.env" }).1
    (.fileParsing "ok.env" (.invalidInput "Dangerous pattern detected")) (by decide)

/-! # C10 -/

/-- C10: when the stored value for a key is a Boolean, `get_int_secure`
returns it as an integer (true as 1, false as 0) instead of the caller's
default, because Python's `isinstance(value, int)` branch accepts booleans. -/
theorem get_int_secure_returns_stored_boolean (st : SecureState) (key : String)
    (default : Option Int) (b : Bool)
    (h : dictGet st.env_data key = some (.bool b)) :
    (get_int_secure st key default).2 = some (if b then 1 else 0) := by
  unfold get_int_secure get_secure
  simp [h]

/-- Witness for C10: a store holding `DEBUG ↦ true` yields 1, not the
default 99. -/
theorem get_int_secure_returns_stored_boolean_witness :
    dictGet (SecureState.mk [("DEBUG", .bool true)] [] [] 0).env_data "DEBUG"
      = some (.bool true) ∧
    (get_int_secure (SecureState.mk [("DEBUG", .bool true)] [] [] 0) "DEBUG"
      (some 99)).2 = some 1 := by
  refine ⟨by decide, ?_⟩
  have h := get_int_secure_returns_stored_boolean
    (SecureState.mk [("DEBUG", .bool true)] [] [] 0) "DEBUG" (some 99) true
    (by decide)
  simpa using h

/-! # C4 -/

/-- C4: on a tracked file whose recomputed content hash differs from the
stored hash, `verify_file_integrity` returns `false` — the `IntegrityError`
the source raises is caught by the function's own blanket
`except Exception: return False`, so no Integrity error propagates (the
claim's "raises an Integrity error" describes the intended but dead raise);
the function indeed never returns true for a mutated file. -/
theorem verify_file_integrity_mismatch_returns_false (st : SecureState)
    (fs : FileSystem) (path expected : String)
    (h : dictGet st.file_hashes path = some expected)
    (hne : calculate_file_hash (fs.content path) ≠ expected) :
    verify_file_integrity st fs path = false := by
  simp [verify_file_integrity, h, hne]

/-- Witness for C4: a loader that hashed `A=1`, re-checked against a file now
holding `A=2`, reports `false`. -/
theorem verify_file_integrity_mismatch_returns_false_witness :
    dictGet (SecureState.mk [] [("f.env", "A=1\x0a")] [] 0).file_hashes "f.env"
      = some "A=1\x0a" ∧
    calculate_file_hash ((constFS "A=2\x0a").content "f.env") ≠ "A=1\x0a" ∧
    verify_file_integrity (SecureState.mk [] [("f.env", "A=1\x0a")] [] 0)
      (constFS "A=2\x0a") "f.env" = false := by
  refine ⟨by decide, by decide, ?_⟩
  exact verify_file_integrity_mismatch_returns_false
    (SecureState.mk [] [("f.env", "A=1\x0a")] [] 0) (constFS "A=2\x0a")
    "f.env" "A=1\x0a" (by decide) (by decide)

/-! # C5 -/

/-- C5 counterexample: a null-byte path is rejected with `InvalidInputError`,
not with the `PathTraversalError` the claim names. -/
theorem validate_path_null_byte_error_class :
    (validate_path_security initialState "a\x00b").2
      = .error (.invalidInput "Null byte in path") ∧
    (validate_path_security initialState "a\x00b").2
      ≠ .error (.pathTraversal "a\x00b") := by
  exact ⟨by decide, by decide⟩

/-- C5 amended: `".."` and absolute-root paths fail with `PathTraversalError`;
null-byte and overlong paths fail with `InvalidInputError`; and any path
validation error makes the secure parse fail with that error identically for
every file system, i.e. before any file-system access. -/
theorem path_validation_classification (st : SecureState) (path : String)
    (h0 : path ≠ "") :
    ((strContains path ".." || strStarts path "/") = true →
      (validate_path_security st path).2 = .error (.pathTraversal path)) ∧
    ((strContains path ".." || strStarts path "/") = false →
      strContains path "\x00" = true →
      (validate_path_security st path).2
        = .error (.invalidInput "Null byte in path")) ∧
    ((strContains path ".." || strStarts path "/") = false →
      strContains path "\x00" = false → path.length > 1024 →
      (validate_path_security st path).2
        = .error (.invalidInput "Path too long")) ∧
    (∀ e, (validate_path_security st path).2 = .error e →
      ∀ fs, (parse_file_secure st fs path).2 = .error e) := by
  refine ⟨?_, ?_, ?_, ?_⟩
  · intro h
    simp [validate_path_security, h0, h]
  · intro h hnull
    simp [validate_path_security, h0, h, hnull]
  · intro h hnull hlen
    simp [validate_path_security, h0, h, hnull, hlen]
  · intro e he fs
    unfold parse_file_secure
    split
    · rename_i st1 e' heq
      have h2 : Except.error e' = (validate_path_security st path).2 := by
        rw [heq]
      rw [he] at h2
      injection h2 with h3
      show Except.error e' = Except.error e
      rw [h3]
    · rename_i st1 u heq
      have h2 : Except.ok u = (validate_path_security st path).2 := by
        rw [heq]
      rw [he] at h2
      exact Except.noConfusion h2

/-- Witness for C5's amended theorem at `"a\x00b"`. -/
theorem path_validation_classification_witness :
    ("a\x00b" : String) ≠ "" ∧
    (validate_path_security initialState "a\x00b").2
      = .error (.invalidInput "Null byte in path") := by
  refine ⟨by decide, ?_⟩
  exact (path_validation_classification initialState "a\x00b" (by decide)).2.1
    (by decide) (by decide)

/-! # C9 -/

/-- C9 counterexample: loading a file holding only a comment succeeds, yet
`is_loaded` reports `false` afterwards, because `is_loaded` is the Python
truthiness of the (empty) map. -/
theorem load_secure_comment_only_not_loaded :
    (load_secure initialState (constFS "# only a comment\x0a")
      { path := some "ok.env" }).2 = none ∧
    is_loaded (load_secure initialState (constFS "# only a comment\x0a")
      { path := some "ok.env" }).1 = false := by
  exact ⟨by decide, by decide⟩

/-- C9 amended: after a successful `load_secure`, `is_loaded` reports whether
the newly parsed map is nonempty (so it is `true` exactly when the file
yielded at least one key/value pair). -/
theorem load_secure_success_is_loaded (st : SecureState) (fs : FileSystem)
    (options : LoadOptions) (h : (load_secure st fs options).2 = none) :
    ∃ p env, resolve_path fs options = .ok p ∧
      (parse_file_secure st fs p).2 = .ok env ∧
      is_loaded (load_secure st fs options).1 = !env.isEmpty := by
  cases hr : resolve_path fs options with
  | error e =>
    exfalso
    unfold load_secure at h
    simp only [hr] at h
    simp at h
  | ok p =>
    cases hp : parse_file_secure st fs p with
    | mk st1 r =>
      cases r with
      | error e =>
        exfalso
        unfold load_secure at h
        simp only [hr, hp] at h
        simp at h
      | ok env =>
        refine ⟨p, env, rfl, by rw [hp], ?_⟩
        unfold load_secure
        simp only [hr, hp]
        show is_loaded (log_access { st1 with env_data := env }
          "load_complete" none true) = !env.isEmpty
        unfold is_loaded
        rw [log_access_env_data]

/-- Witness for C9's amended theorem on a one-pair file. -/
theorem load_secure_success_is_loaded_witness :
    (load_secure initialState (constFS "A=hello\x0a")
      { path := some "ok.env" }).2 = none ∧
    ∃ p env, resolve_path (constFS "A=hello\x0a")
        { path := some "ok.env" } = .ok p ∧
      (parse_file_secure initialState (constFS "A=hello\x0a") p).2 = .ok env ∧
      is_loaded (load_secure initialState (constFS "A=hello\x0a")
        { path := some "ok.env" }).1 = !env.isEmpty := by
  refine ⟨by decide, ?_⟩
  exact load_secure_success_is_loaded initialState (constFS "A=hello\x0a")
    { path := some "ok.env" } (by decide)

/-! # C6 -/

/-- C6 counterexample: content holding `$(` makes the secure parse fail with
a `FileParsingError` wrapping the batch check's `InvalidInputError` — not
with a top-level `InvalidInputError`, as the source's blanket
`except Exception` wraps every error raised inside its `try`. -/
theorem dangerous_content_error_is_wrapped :
    (parse_file_secure initialState (constFS "A=$(rm)\x0a") "ok.env").2
      = .error (.fileParsing "ok.env"
          (.invalidInput "Dangerous pattern detected")) ∧
    isInvalidInputErr
      (parse_file_secure initialState (constFS "A=$(rm)\x0a") "ok.env").2
      = false := by
  exact ⟨by decide, by decide⟩

/-- C6 amended: for any file passing path/file validation whose decoded
content contains a dangerous pattern or an embedded null byte, the secure
parse fails with `FileParsingError` wrapping the `InvalidInputError` raised
by the whole-content batch check (which tests for null bytes first);
dangerous values are also rejected by the per-value check
`__validate_key_value`. -/
theorem parse_file_dangerous_content (st : SecureState) (fs : FileSystem)
    (path : String)
    (hpath : (validate_path_security st path).2 = .ok ())
    (hex : fs.pathExists path = true)
    (hisf : fs.isFile path = true)
    (hsym : fs.isSymlink path = false)
    (hsz : fs.size path ≠ 0)
    (hsz2 : fs.size path ≤ MAX_FILE_SIZE)
    (hread : fs.readable path = true)
    (hdec : fs.decodeOk path = true)
    (hbad : strContains (fs.content path) "\x00" = true ∨
      DANGEROUS_PATTERNS.any
        (fun q => strContains (pyLower (fs.content path)) q) = true) :
    (parse_file_secure st fs path).2
      = .error (.fileParsing path
          (.invalidInput (if strContains (fs.content path) "\x00" = true
            then "Null byte detected in file content"
            else "Dangerous pattern detected"))) ∧
    (∀ k v, DANGEROUS_PATTERNS.any
        (fun q => strContains (pyLower v) q) = true →
      validate_key_value k v ≠ .ok ()) := by
  constructor
  · have hbatch : validate_content_security_batch (fs.content path)
        = .error (.invalidInput
            (if strContains (fs.content path) "\x00" = true
             then "Null byte detected in file content"
             else "Dangerous pattern detected")) := by
      by_cases hn : strContains (fs.content path) "\x00" = true
      · rw [if_pos hn]
        simp [validate_content_security_batch, hn]
      · rw [if_neg hn]
        simp [validate_content_security_batch, eq_false_of_ne_true hn,
          hbad.resolve_left hn]
    unfold parse_file_secure
    split
    · rename_i st1 e heq
      have h2 : Except.error e = (validate_path_security st path).2 := by
        rw [heq]
      rw [hpath] at h2
      exact Except.noConfusion h2
    · rename_i st1 u heq
      have hfile : validate_file_security st1 fs path
          = ({ st1 with
                file_hashes := dictSet st1.file_hashes path
                  (calculate_file_hash (fs.content path)) }, .ok ()) := by
        unfold validate_file_security
        rw [if_neg (by simp [hex]), if_neg (by simp [hisf]),
            if_neg (by simp [hsym]), if_neg hsz,
            if_neg (by omega), if_neg (by simp [hread])]
      simp only [hfile]
      rw [if_neg (by simp [hdec])]
      simp only [hbatch]
  · intro k v hd hcontra
    unfold validate_key_value at hcontra
    rw [hd] at hcontra
    simp only [if_true] at hcontra
    split at hcontra
    · exact Except.noConfusion hcontra
    · split at hcontra
      · exact Except.noConfusion hcontra
      · split at hcontra
        · exact Except.noConfusion hcontra
        · split at hcontra
          · exact Except.noConfusion hcontra
          · exact Except.noConfusion hcontra

/-- Witness for C6's amended theorem at concrete dangerous and null-byte
content. -/
theorem parse_file_dangerous_content_witness :
    (parse_file_secure initialState (constFS "A=$(rm)\x0a") "ok.env").2
      = .error (.fileParsing "ok.env"
          (.invalidInput "Dangerous pattern detected")) ∧
    (parse_file_secure initialState (constFS "A=a\x00b\x0a") "ok.env").2
      = .error (.fileParsing "ok.env"
          (.invalidInput "Null byte detected in file content")) ∧
    validate_key_value "A" "$(rm)" ≠ .ok () := by
  have h1 := parse_file_dangerous_content initialState (constFS "A=$(rm)\x0a")
    "ok.env" (by decide) (by decide) (by decide) (by decide) (by decide)
    (by decide) (by decide) (by decide) (Or.inr (by decide))
  have h2 := parse_file_dangerous_content initialState (constFS "A=a\x00b\x0a")
    "ok.env" (by decide) (by decide) (by decide) (by decide) (by decide)
    (by decide) (by decide) (by decide) (Or.inl (by decide))
  refine ⟨?_, ?_, h1.2 "A" "$(rm)" (by decide)⟩
  · have h := h1.1
    rw [if_neg (by decide)] at h
    exact h
  · have h := h2.1
    rw [if_pos (by decide)] at h
    exact h

/-! # Shared lemmas: character classes and stripping -/

theorem alpha_not_space (c : Char) (h : isAsciiAlpha c = true) :
    pyIsSpace c = false := by
  rw [Bool.eq_false_iff]
  intro hs
  unfold isAsciiAlpha at h
  unfold pyIsSpace at hs
  simp only [Bool.or_eq_true, Bool.and_eq_true, decide_eq_true_eq,
    beq_iff_eq] at h hs
  omega

theorem dropWhile_concat_ne_nil {α : Type} (p : α → Bool) (l : List α) (c : α)
    (h : p c = false) : (l ++ [c]).dropWhile p ≠ [] := by
  induction l with
  | nil => simp [List.dropWhile, h]
  | cons d rest ih =>
    by_cases hd : p d
    · simpa [List.dropWhile_cons, hd] using ih
    · simp [List.dropWhile_cons, hd]

theorem stripChars_ne_nil_of_alpha_head (c : Char) (rest : List Char)
    (h : isAsciiAlpha c = true) : stripChars (c :: rest) ≠ [] := by
  unfold stripChars
  rw [List.dropWhile_cons, if_neg (by simp [alpha_not_space c h])]
  intro hc
  have h2 : ((c :: rest).reverse.dropWhile pyIsSpace) = [] := by
    simpa using congrArg List.reverse hc
  rw [List.reverse_cons] at h2
  exact dropWhile_concat_ne_nil pyIsSpace rest.reverse c
    (alpha_not_space c h) h2

/-! # C7 -/

/-- C7 counterexample: the secure parser's key validation accepts `"9abc"`,
a key beginning with a digit, which fails the strict pattern
`^[A-Za-z][A-Za-z0-9_-]*$`. -/
theorem secure_key_check_accepts_digit_start :
    validate_key_value "9abc" "v" = .ok () ∧
    keyPatternMatch "9abc" = false := by
  exact ⟨by decide, by decide⟩

/-- C7 amended: `utils.validate_key_format` in strict mode accepts a key
exactly when Python's `re.match` with `^[A-Za-z][A-Za-z0-9_-]*$` does — that
is, when the key, or the key minus one trailing newline, lies in the regex's
language (with no length bound) — while the secure parser's
`__validate_key_value` accepts a key (for a value passing its own checks)
exactly when the key is nonempty after stripping, at most MAX_KEY_LENGTH
long, and alphanumeric after removing `'_'` and `'-'`.  The two checks are
incomparable: every key in the regex language of length at most
MAX_KEY_LENGTH passes the secure check, but digit-led keys pass only the
secure check, and keys accepted via the trailing-newline allowance pass only
the utils check. -/
theorem key_validation_characterization :
    (∀ k, validate_key_format k true = .ok () ↔ keyPatternMatch k = true) ∧
    (∀ k, keyPatternMatch k = true ↔
      (keyPatternCore k.data = true ∨
        (k.data.getLast? = some '\x0a' ∧
          keyPatternCore k.data.dropLast = true))) ∧
    (∀ k v, v.length ≤ MAX_VALUE_LENGTH →
      DANGEROUS_PATTERNS.any (fun q => strContains (pyLower v) q) = false →
      (validate_key_value k v = .ok () ↔
        (pyStrip k ≠ "" ∧ k.length ≤ MAX_KEY_LENGTH ∧
         pyIsAlnum (String.mk
           (k.data.filter (fun c => c != '_' && c != '-'))) = true))) ∧
    (∀ k v, keyPatternCore k.data = true → k.length ≤ MAX_KEY_LENGTH →
      v.length ≤ MAX_VALUE_LENGTH →
      DANGEROUS_PATTERNS.any (fun q => strContains (pyLower v) q) = false →
      validate_key_value k v = .ok ()) ∧
    (∀ k v, k.data.getLast? = some '\x0a' →
      validate_key_value k v ≠ .ok ()) := by
  have hfmt : ∀ k, validate_key_format k true = .ok () ↔
      keyPatternMatch k = true := by
    intro k
    by_cases h0 : k = ""
    · subst h0
      exact ⟨fun h => absurd h (by decide), fun h => absurd h (by decide)⟩
    · by_cases hp : keyPatternMatch k
      · simp [validate_key_format, h0, hp]
      · simp [validate_key_format, h0, hp]
  have hmatch : ∀ k : String, keyPatternMatch k = true ↔
      (keyPatternCore k.data = true ∨
        (k.data.getLast? = some '\x0a' ∧
          keyPatternCore k.data.dropLast = true)) := by
    intro k
    unfold keyPatternMatch
    by_cases hl : k.data.getLast? = some '\x0a'
    · rw [if_pos hl]
      constructor
      · intro h
        exact Or.inr ⟨hl, h⟩
      · intro h
        rcases h with h | h
        · exfalso
          cases hkd : k.data with
          | nil =>
            rw [hkd] at hl
            simp at hl
          | cons c rest =>
            rw [hkd] at h hl
            simp only [keyPatternCore, Bool.and_eq_true,
              List.all_eq_true] at h
            obtain ⟨hc, hrest⟩ := h
            have hmem : '\x0a' ∈ c :: rest :=
              List.mem_of_getLast?_eq_some hl
            rcases List.mem_cons.mp hmem with hm | hm
            · rw [← hm] at hc
              exact absurd hc (by decide)
            · exact absurd (hrest '\x0a' hm) (by decide)
        · exact h.2
    · rw [if_neg hl]
      constructor
      · exact Or.inl
      · intro h
        rcases h with h | h
        · exact h
        · exact absurd h.1 hl
  have hnl : ∀ (k v : String), k.data.getLast? = some '\x0a' →
      validate_key_value k v ≠ .ok () := by
    intro k v hl hcontra
    have hmem : '\x0a' ∈ k.data := List.mem_of_getLast?_eq_some hl
    have hmemf : '\x0a' ∈ k.data.filter (fun c => c != '_' && c != '-') :=
      List.mem_filter.mpr ⟨hmem, by decide⟩
    have halnum : pyIsAlnum (String.mk
        (k.data.filter (fun c => c != '_' && c != '-'))) = false := by
      rw [Bool.eq_false_iff]
      intro hc
      unfold pyIsAlnum at hc
      rw [Bool.and_eq_true, List.all_eq_true] at hc
      exact absurd (hc.2 '\x0a' hmemf) (by decide)
    unfold validate_key_value at hcontra
    rw [halnum] at hcontra
    split at hcontra
    · exact Except.noConfusion hcontra
    · split at hcontra
      · exact Except.noConfusion hcontra
      · simp at hcontra
  have hsec : ∀ k v, v.length ≤ MAX_VALUE_LENGTH →
      DANGEROUS_PATTERNS.any (fun q => strContains (pyLower v) q) = false →
      (validate_key_value k v = .ok () ↔
        (pyStrip k ≠ "" ∧ k.length ≤ MAX_KEY_LENGTH ∧
         pyIsAlnum (String.mk
           (k.data.filter (fun c => c != '_' && c != '-'))) = true)) := by
    intro k v hv1 hv2
    have hvlen : ¬(v.length > MAX_VALUE_LENGTH) := by omega
    by_cases h1 : pyStrip k = ""
    · simp [validate_key_value, h1]
    · by_cases h2 : k.length ≤ MAX_KEY_LENGTH
      · by_cases h3 : pyIsAlnum (String.mk
            (k.data.filter (fun c => c != '_' && c != '-'))) = true
        · have hk0 : k ≠ "" := by
            intro hc
            exact h1 (by rw [hc]; rfl)
          simp [validate_key_value, h1, hk0, h2, h3, hvlen, hv2,
            show ¬(k.length > MAX_KEY_LENGTH) by omega]
        · simp only [validate_key_value, h1, h2, h3]
          simp [show ¬(k.length > MAX_KEY_LENGTH) by omega, h3]
          split <;> simp
      · simp [validate_key_value, h1, h2, show k.length > MAX_KEY_LENGTH by omega]
        split <;> simp
  refine ⟨hfmt, hmatch, hsec, ?_, hnl⟩
  intro k v hk hlen hv1 hv2
  rw [hsec k v hv1 hv2]
  cases hkd : k.data with
  | nil => rw [hkd] at hk; exact absurd hk (by decide)
  | cons c rest =>
    rw [hkd] at hk
    simp only [keyPatternCore, Bool.and_eq_true, List.all_eq_true] at hk
    obtain ⟨hc, hrest⟩ := hk
    have hcu : c ≠ '_' := by
      intro hce
      rw [hce] at hc
      exact absurd hc (by decide)
    have hch : c ≠ '-' := by
      intro hce
      rw [hce] at hc
      exact absurd hc (by decide)
    refine ⟨?_, hlen, ?_⟩
    · show ¬ String.mk (stripChars k.data) = ""
      rw [hkd]
      intro hcontra
      exact stripChars_ne_nil_of_alpha_head c rest hc
        (by simpa using congrArg String.data hcontra)
    · simp only [List.filter_cons]
      rw [if_pos (by simp [hcu, hch])]
      unfold pyIsAlnum
      simp only [List.all_cons, Bool.and_eq_true, List.all_eq_true]
      refine ⟨by simp, ⟨by simp [isAsciiAlnum, hc], ?_⟩⟩
      intro d hdf
      rw [List.mem_filter] at hdf
      obtain ⟨hdr, hdp⟩ := hdf
      have hdm := hrest d hdr
      simp only [Bool.or_eq_true, beq_iff_eq] at hdm
      simp only [Bool.and_eq_true, bne_iff_ne, ne_eq] at hdp
      rcases hdm with (h | h) | h
      · exact h
      · exact absurd h hdp.1
      · exact absurd h hdp.2

/-- Witness for C7's amended theorem at concrete keys and values, including
a key accepted by `utils` only through the trailing-newline allowance and
rejected by the secure check. -/
theorem key_validation_characterization_witness :
    ((1 : Nat) ≤ MAX_VALUE_LENGTH ∧
      DANGEROUS_PATTERNS.any (fun q => strContains (pyLower "v") q) = false) ∧
    validate_key_format "DB_HOST" true = .ok () ∧
    validate_key_value "DB_HOST" "v" = .ok () ∧
    validate_key_format "HOST\x0a" true = .ok () ∧
    validate_key_value "HOST\x0a" "v" ≠ .ok () := by
  refine ⟨⟨by decide, by decide⟩, ?_, ?_, ?_, ?_⟩
  · exact (key_validation_characterization.1 "DB_HOST").2 (by decide)
  · exact key_validation_characterization.2.2.2.1 "DB_HOST" "v" (by decide)
      (by decide) (by decide) (by decide)
  · exact (key_validation_characterization.1 "HOST\x0a").2 (by decide)
  · exact key_validation_characterization.2.2.2.2 "HOST\x0a" "v" (by decide)

/-! # Shared lemmas: dictionary keys and the `os.environ` update -/

theorem dictGet_eq_none_iff {α : Type} (m : List (String × α)) (k : String) :
    dictGet m k = none ↔ k ∉ m.map Prod.fst := by
  induction m with
  | nil => simp [dictGet]
  | cons p rest ih =>
    by_cases hp : p.1 = k
    · simp [dictGet, hp]
    · rw [List.map_cons]
      simp only [dictGet, if_neg hp, List.mem_cons]
      rw [ih]
      constructor
      · intro h hc
        rcases hc with hc | hc
        · exact hp hc.symm
        · exact h hc
      · intro h hc
        exact h (Or.inr hc)

theorem dictSet_keys_nodup {α : Type} (m : List (String × α)) (k : String)
    (v : α) (h : (m.map Prod.fst).Nodup) :
    ((dictSet m k v).map Prod.fst).Nodup := by
  by_cases hk : hasKey m k
  · unfold dictSet
    rw [if_pos hk]
    have hmap : (m.map (fun p => if p.1 = k then (k, v) else p)).map Prod.fst
        = m.map Prod.fst := by
      rw [List.map_map]
      apply List.map_congr_left
      intro p _
      by_cases hpk : p.1 = k
      · simp [hpk]
      · simp [hpk]
    rw [hmap]
    exact h
  · rw [dictSet_fresh m k v (eq_false_of_ne_true hk)]
    rw [List.map_append, List.map_cons, List.map_nil, List.nodup_append]
    refine ⟨h, List.nodup_singleton k, ?_⟩
    intro a ha hb
    rw [List.mem_singleton] at hb
    subst hb
    have hnone : dictGet m a = none := by
      have h2 : hasKey m a = false := eq_false_of_ne_true hk
      unfold hasKey at h2
      exact Option.not_isSome_iff_eq_none.mp (by simp [h2])
    rw [dictGet_eq_none_iff] at hnone
    exact hnone ha

theorem parse_env_content_keys_nodup (content : String) :
    ((parse_env_content content).map Prod.fst).Nodup := by
  unfold parse_env_content
  suffices h : ∀ (lines : List String) (acc : List (String × EnvValue)),
      (acc.map Prod.fst).Nodup →
      ((lines.foldl (fun m line =>
        match parse_env_line line with
        | none => m
        | some kv => dictSet m kv.1 kv.2) acc).map Prod.fst).Nodup by
    exact h _ [] (by simp)
  intro lines
  induction lines with
  | nil =>
    intro acc hacc
    simpa using hacc
  | cons l rest ih =>
    intro acc hacc
    simp only [List.foldl_cons]
    cases parse_env_line l with
    | none => exact ih acc hacc
    | some kv => exact ih _ (dictSet_keys_nodup acc kv.1 kv.2 hacc)

theorem osUpdate_lookup_not_mem (m : List (String × EnvValue)) :
    ∀ (e : List (String × String)) (k : String), dictGet m k = none →
      dictGet (osUpdate e m) k = dictGet e k := by
  induction m with
  | nil =>
    intro e k _
    rfl
  | cons p rest ih =>
    intro e k h
    have hp : p.1 ≠ k := by
      intro hc
      unfold dictGet at h
      rw [if_pos hc] at h
      exact Option.noConfusion h
    have hr : dictGet rest k = none := by
      unfold dictGet at h
      rwa [if_neg hp] at h
    show dictGet (osUpdate (dictSet e p.1 (pyStr p.2)) rest) k = dictGet e k
    rw [ih _ k hr]
    exact dictGet_dictSet_ne e p.1 k (pyStr p.2) (Ne.symm hp)

theorem osUpdate_lookup_some (m : List (String × EnvValue)) :
    ∀ (e : List (String × String)) (k : String) (v : EnvValue),
      (m.map Prod.fst).Nodup → dictGet m k = some v →
      dictGet (osUpdate e m) k = some (pyStr v) := by
  induction m with
  | nil =>
    intro e k v _ h
    exact Option.noConfusion h
  | cons p rest ih =>
    intro e k v hnd h
    rw [List.map_cons, List.nodup_cons] at hnd
    obtain ⟨hpn, hrest⟩ := hnd
    by_cases hp : p.1 = k
    · have h2 : some p.2 = some v := by
        unfold dictGet at h
        rwa [if_pos hp] at h
      injection h2 with hv
      have hnone : dictGet rest k = none := by
        rw [dictGet_eq_none_iff, ← hp]
        exact hpn
      show dictGet (osUpdate (dictSet e p.1 (pyStr p.2)) rest) k
        = some (pyStr v)
      rw [osUpdate_lookup_not_mem rest _ k hnone, hp,
        dictGet_dictSet_self, hv]
    · have hr : dictGet rest k = some v := by
        unfold dictGet at h
        rwa [if_neg hp] at h
      show dictGet (osUpdate (dictSet e p.1 (pyStr p.2)) rest) k
        = some (pyStr v)
      exact ih _ k v hrest hr

/-! # C3 -/

/-- C3: the secure load never reads or writes the process-wide environment
table (it is returned unchanged on success and on failure alike), while a
successful simple-path load copies every parsed key/value pair, stringified,
into the table and leaves all other entries unchanged. -/
theorem secure_load_frame_simple_load_syncs :
    (∀ (st : SecureState) (osEnviron : List (String × String))
       (fs : FileSystem) (options : LoadOptions),
      (load_secure_with_os st osEnviron fs options).2.1 = osEnviron) ∧
    (∀ (st : SimpleState) (osEnviron : List (String × String))
       (fs : FileSystem) (scan : SimpleScan) (path : Option String)
       (d : Int) (st' : SimpleState) (osEnviron' : List (String × String)),
      simple_load st osEnviron fs scan path d = (st', osEnviron', none) →
      (∀ k v, dictGet st'.env_data k = some v →
        dictGet osEnviron' k = some (pyStr v)) ∧
      (∀ k, dictGet st'.env_data k = none →
        dictGet osEnviron' k = dictGet osEnviron k)) := by
  constructor
  · intro st osE fs options
    rfl
  · intro st osE fs scan path d st' osE' h
    unfold simple_load at h
    split at h
    · exact absurd h (by simp)
    · split at h
      · exact absurd h (by simp)
      · rename_i p hres
        cases hparse : simple_parse_file fs p with
        | error e =>
          rw [hparse] at h
          exact absurd h (by simp)
        | ok env =>
          rw [hparse] at h
          injection h with h1 h23
          injection h23 with h2 h3
          have henv : env = parse_env_content (fs.content p) := by
            unfold simple_parse_file at hparse
            split at hparse
            · exact Except.noConfusion hparse
            · split at hparse
              · exact Except.noConfusion hparse
              · injection hparse with h4
                exact h4.symm
          have hnd : (env.map Prod.fst).Nodup := by
            rw [henv]
            exact parse_env_content_keys_nodup (fs.content p)
          subst h1
          subst h2
          constructor
          · intro k v hkv
            exact osUpdate_lookup_some env osE k v hnd hkv
          · intro k hk
            exact osUpdate_lookup_not_mem env osE k hk

/-- Witness for C3's simple-load clause at a concrete load. -/
theorem secure_load_frame_simple_load_syncs_witness :
    simple_load ⟨[]⟩ [("PATH", "/bin")] (constFS "A=hello\x0a") ⟨none⟩
      (some "x.env") 2
      = (⟨[("A", .str "hello")]⟩,
         [("PATH", "/bin"), ("A", "hello")], none) ∧
    dictGet [("PATH", "/bin"), ("A", "hello")] "A" = some (pyStr (.str "hello")) := by
  refine ⟨by decide, ?_⟩
  have h := (secure_load_frame_simple_load_syncs.2 ⟨[]⟩ [("PATH", "/bin")]
    (constFS "A=hello\x0a") ⟨none⟩ (some "x.env") 2
    ⟨[("A", .str "hello")]⟩ [("PATH", "/bin"), ("A", "hello")]
    (by decide)).1 "A" (.str "hello") (by decide)
  exact h

/-! # Shared lemmas: value parsing -/

theorem parse_env_value_not_bool (s : String)
    (hT : TRUE_VALUES.contains (pyLower (pyStrip s)) = false)
    (hF : FALSE_VALUES.contains (pyLower (pyStrip s)) = false)
    (b : Bool) : parse_env_value s ≠ .bool b := by
  intro h
  simp only [parse_env_value] at h
  split at h
  · exact EnvValue.noConfusion h
  · split at h
    · rename_i hc
      rw [hT] at hc
      exact Bool.noConfusion hc
    · split at h
      · rename_i hc
        rw [hF] at hc
        exact Bool.noConfusion hc
      · split at h
        · split at h
          · exact EnvValue.noConfusion h
          · exact EnvValue.noConfusion h
        · split at h
          · split at h
            · exact EnvValue.noConfusion h
            · exact EnvValue.noConfusion h
          · exact EnvValue.noConfusion h

theorem parse_value_secure_not_bool (s : String)
    (hT : TRUE_VALUES.contains (pyLower (pyStrip s)) = false)
    (hF : FALSE_VALUES.contains (pyLower (pyStrip s)) = false)
    (b : Bool) : parse_value_secure s ≠ .bool b := by
  intro h
  simp only [parse_value_secure] at h
  split at h
  · rename_i hc
    rw [hT] at hc
    exact Bool.noConfusion hc
  · split at h
    · rename_i hc
      rw [hF] at hc
      exact Bool.noConfusion hc
    · split at h
      · split at h
        · exact EnvValue.noConfusion h
        · exact EnvValue.noConfusion h
      · exact EnvValue.noConfusion h

/-! # C1 -/

/-- C1 counterexample: the empty string is a member of FALSE_VALUES, yet
`parse_env_value` returns it as String `""` (its empty-value short circuit
runs before the boolean checks), not as Boolean false. -/
theorem parse_env_value_empty_not_boolean :
    FALSE_VALUES.contains (pyLower (pyStrip "")) = true ∧
    parse_env_value "" = .str "" ∧
    parse_env_value "" ≠ .bool false := by
  exact ⟨by decide, by decide, by decide⟩

/-- C1 amended: both value parsers follow the claimed precedence —
TRUE_VALUES to Boolean true, then FALSE_VALUES to Boolean false, then
all-digits (optional leading `'-'`) to a range-checked 64-bit integer with
out-of-range values retained as strings — with one exception: for strings
whose stripped form is empty, `utils.parse_env_value` returns String `""`
before the boolean checks (although `""` is in FALSE_VALUES), while the
secure parser follows the precedence even there (mapping `""` to Boolean
false).  The 64-bit boundary values parse as claimed, and no string outside
the two boolean sets ever parses to a Boolean under either parser. -/
theorem parse_value_precedence :
    (∀ s : String, pyStrip s ≠ "" →
      (TRUE_VALUES.contains (pyLower (pyStrip s)) = true →
        parse_env_value s = .bool true) ∧
      (TRUE_VALUES.contains (pyLower (pyStrip s)) = false →
       FALSE_VALUES.contains (pyLower (pyStrip s)) = true →
        parse_env_value s = .bool false) ∧
      (TRUE_VALUES.contains (pyLower (pyStrip s)) = false →
       FALSE_VALUES.contains (pyLower (pyStrip s)) = false →
       (pyIsDigit (pyStrip s) || (strStarts (pyStrip s) "-" &&
          pyIsDigit (String.mk ((pyStrip s).data.drop 1)))) = true →
        ((INT64_MIN ≤ pyIntOfDigitish (pyStrip s) ∧
          pyIntOfDigitish (pyStrip s) ≤ INT64_MAX) →
          parse_env_value s = .int (pyIntOfDigitish (pyStrip s))) ∧
        (¬(INT64_MIN ≤ pyIntOfDigitish (pyStrip s) ∧
           pyIntOfDigitish (pyStrip s) ≤ INT64_MAX) →
          parse_env_value s = .str (pyStrip s)))) ∧
    (∀ s : String,
      (TRUE_VALUES.contains (pyLower (pyStrip s)) = true →
        parse_value_secure s = .bool true) ∧
      (TRUE_VALUES.contains (pyLower (pyStrip s)) = false →
       FALSE_VALUES.contains (pyLower (pyStrip s)) = true →
        parse_value_secure s = .bool false) ∧
      (TRUE_VALUES.contains (pyLower (pyStrip s)) = false →
       FALSE_VALUES.contains (pyLower (pyStrip s)) = false →
       (pyIsDigit (pyStrip s) || (strStarts (pyStrip s) "-" &&
          pyIsDigit (String.mk ((pyStrip s).data.drop 1)))) = true →
        ((INT64_MIN ≤ pyIntOfDigitish (pyStrip s) ∧
          pyIntOfDigitish (pyStrip s) ≤ INT64_MAX) →
          parse_value_secure s = .int (pyIntOfDigitish (pyStrip s))) ∧
        (¬(INT64_MIN ≤ pyIntOfDigitish (pyStrip s) ∧
           pyIntOfDigitish (pyStrip s) ≤ INT64_MAX) →
          parse_value_secure s = .str (pyStrip s)))) ∧
    (∀ (s : String) (b : Bool), parse_env_value s = .bool b →
      (TRUE_VALUES.contains (pyLower (pyStrip s)) ||
       FALSE_VALUES.contains (pyLower (pyStrip s))) = true) ∧
    (∀ (s : String) (b : Bool), parse_value_secure s = .bool b →
      (TRUE_VALUES.contains (pyLower (pyStrip s)) ||
       FALSE_VALUES.contains (pyLower (pyStrip s))) = true) ∧
    parse_env_value "9223372036854775807" = .int 9223372036854775807 ∧
    parse_env_value "9223372036854775808" = .str "9223372036854775808" ∧
    parse_value_secure "9223372036854775807" = .int 9223372036854775807 ∧
    parse_value_secure "9223372036854775808" = .str "9223372036854775808" := by
  refine ⟨?_, ?_, ?_, ?_, by decide, by decide, by decide, by decide⟩
  · intro s hne
    refine ⟨?_, ?_, ?_⟩
    · intro hT
      simp only [parse_env_value]
      rw [if_neg hne, if_pos hT]
    · intro hT hF
      simp only [parse_env_value]
      rw [if_neg hne, if_neg (by rw [hT]; simp), if_pos hF]
    · intro hT hF hD
      constructor
      · intro hrange
        simp only [parse_env_value]
        rw [if_neg hne, if_neg (by rw [hT]; simp), if_neg (by rw [hF]; simp),
          if_pos hD, if_pos hrange]
      · intro hrange
        simp only [parse_env_value]
        rw [if_neg hne, if_neg (by rw [hT]; simp), if_neg (by rw [hF]; simp),
          if_pos hD, if_neg hrange]
  · intro s
    refine ⟨?_, ?_, ?_⟩
    · intro hT
      simp only [parse_value_secure]
      rw [if_pos hT]
    · intro hT hF
      simp only [parse_value_secure]
      rw [if_neg (by rw [hT]; simp), if_pos hF]
    · intro hT hF hD
      constructor
      · intro hrange
        simp only [parse_value_secure]
        rw [if_neg (by rw [hT]; simp), if_neg (by rw [hF]; simp),
          if_pos hD, if_pos hrange]
      · intro hrange
        simp only [parse_value_secure]
        rw [if_neg (by rw [hT]; simp), if_neg (by rw [hF]; simp),
          if_pos hD, if_neg hrange]
  · intro s b h
    by_cases hT : TRUE_VALUES.contains (pyLower (pyStrip s)) = true
    · rw [Bool.or_eq_true]
      exact Or.inl hT
    · by_cases hF : FALSE_VALUES.contains (pyLower (pyStrip s)) = true
      · rw [Bool.or_eq_true]
        exact Or.inr hF
      · exact absurd h (parse_env_value_not_bool s
          (eq_false_of_ne_true hT) (eq_false_of_ne_true hF) b)
  · intro s b h
    by_cases hT : TRUE_VALUES.contains (pyLower (pyStrip s)) = true
    · rw [Bool.or_eq_true]
      exact Or.inl hT
    · by_cases hF : FALSE_VALUES.contains (pyLower (pyStrip s)) = true
      · rw [Bool.or_eq_true]
        exact Or.inr hF
      · exact absurd h (parse_value_secure_not_bool s
          (eq_false_of_ne_true hT) (eq_false_of_ne_true hF) b)

/-- Witness for C1's amended theorem at concrete inputs in each branch. -/
theorem parse_value_precedence_witness :
    (pyStrip " yes " ≠ "" ∧ parse_env_value " yes " = .bool true) ∧
    parse_value_secure "OFF" = .bool false ∧
    parse_env_value "-42" = .int (pyIntOfDigitish (pyStrip "-42")) := by
  refine ⟨⟨by decide, ?_⟩, ?_, ?_⟩
  · exact (parse_value_precedence.1 " yes " (by decide)).1 (by decide)
  · exact (parse_value_precedence.2.1 "OFF").2.1 (by decide) (by decide)
  · exact ((parse_value_precedence.1 "-42" (by decide)).2.2 (by decide)
      (by decide) (by decide)).1 (by decide)

/-! # Shared lemmas: stripping, spans, substrings, line splitting -/

theorem stripChars_eq_rdrop (l : List Char) :
    stripChars l = (l.dropWhile pyIsSpace).rdropWhile pyIsSpace := rfl

theorem dropWhile_eq_self_of_head (p : Char → Bool) (c : Char) (k : List Char)
    (hc : p c = false) : (c :: k).dropWhile p = c :: k := by
  rw [List.dropWhile_cons, if_neg (by simp [hc])]

theorem rdropWhile_eq_self_of_last (p : Char → Bool) (l : List Char)
    (hl : ∀ c, l.getLast? = some c → p c = false) :
    l.rdropWhile p = l := by
  rw [List.rdropWhile_eq_self_iff]
  intro hne
  have hsome : l.getLast? = some (l.getLast hne) := List.getLast?_eq_getLast l hne
  simp [hl _ hsome]

theorem stripChars_eq_self_of_ends (l : List Char)
    (hh : ∀ c, l.head? = some c → pyIsSpace c = false)
    (hl : ∀ c, l.getLast? = some c → pyIsSpace c = false) :
    stripChars l = l := by
  cases l with
  | nil => rfl
  | cons c k =>
    rw [stripChars_eq_rdrop, dropWhile_eq_self_of_head pyIsSpace c k (hh c rfl)]
    exact rdropWhile_eq_self_of_last pyIsSpace (c :: k) hl

theorem head_not_space_of_stripChars_eq (c : Char) (k : List Char)
    (h : stripChars (c :: k) = c :: k) : pyIsSpace c = false := by
  by_contra hc
  rw [Bool.not_eq_false] at hc
  have h1 : ((c :: k).dropWhile pyIsSpace).length ≤ k.length := by
    rw [List.dropWhile_cons, if_pos (by simp [hc])]
    exact (List.dropWhile_suffix pyIsSpace).length_le
  have h2 : (stripChars (c :: k)).length ≤ ((c :: k).dropWhile pyIsSpace).length := by
    rw [stripChars_eq_rdrop]
    exact (List.rdropWhile_prefix pyIsSpace _).length_le
  have h3 := congrArg List.length h
  simp only [List.length_cons] at h3
  omega

theorem last_not_space_of_stripChars_eq (l : List Char) (h : stripChars l = l) :
    ∀ c, l.getLast? = some c → pyIsSpace c = false := by
  intro c hc
  have hne : l ≠ [] := by
    intro hnil
    rw [hnil] at hc
    exact Option.noConfusion hc
  have hd : l.dropWhile pyIsSpace = l := by
    apply (List.dropWhile_suffix pyIsSpace).eq_of_length
    have h1 := (List.dropWhile_suffix pyIsSpace (l := l)).length_le
    have h2 : (stripChars l).length ≤ (l.dropWhile pyIsSpace).length := by
      rw [stripChars_eq_rdrop]
      exact (List.rdropWhile_prefix pyIsSpace _).length_le
    have h3 := congrArg List.length h
    omega
  have hr : l.rdropWhile pyIsSpace = l := by
    rw [stripChars_eq_rdrop, hd] at h
    exact h
  rw [List.rdropWhile_eq_self_iff] at hr
  have h4 := hr hne
  have h5 : l.getLast? = some (l.getLast hne) := List.getLast?_eq_getLast l hne
  rw [hc] at h5
  injection h5 with h6
  rw [h6]
  exact eq_false_of_ne_true h4

theorem takeWhile_append_all (p : Char → Bool) (l₁ l₂ : List Char)
    (h : ∀ c ∈ l₁, p c = true) :
    (l₁ ++ l₂).takeWhile p = l₁ ++ l₂.takeWhile p := by
  induction l₁ with
  | nil => simp
  | cons c rest ih =>
    rw [List.cons_append, List.takeWhile_cons,
      if_pos (h c (List.mem_cons_self c rest)), List.cons_append,
      ih (fun d hd => h d (List.mem_cons_of_mem c hd))]

theorem dropWhile_append_all (p : Char → Bool) (l₁ l₂ : List Char)
    (h : ∀ c ∈ l₁, p c = true) :
    (l₁ ++ l₂).dropWhile p = l₂.dropWhile p := by
  induction l₁ with
  | nil => simp
  | cons c rest ih =>
    rw [List.cons_append, List.dropWhile_cons,
      if_pos (h c (List.mem_cons_self c rest))]
    exact ih (fun d hd => h d (List.mem_cons_of_mem c hd))

theorem partitionEq_append (k w : List Char)
    (hk : ∀ c ∈ k, (c != '=') = true) :
    partitionEq (k ++ '=' :: w) = (k, w) := by
  unfold partitionEq
  rw [List.span_eq_take_drop]
  simp only
  rw [takeWhile_append_all _ k _ hk, dropWhile_append_all _ k _ hk,
    List.takeWhile_cons, List.dropWhile_cons]
  simp

theorem containsSub_singleton_iff (c : Char) (l : List Char) :
    containsSub [c] l = true ↔ c ∈ l := by
  induction l with
  | nil => simp [containsSub]
  | cons d rest ih =>
    show (List.isPrefixOf [c] (d :: rest) || containsSub [c] rest) = true ↔ _
    rw [Bool.or_eq_true, ih]
    simp only [List.isPrefixOf, Bool.and_eq_true, List.mem_cons]
    constructor
    · intro hc
      rcases hc with ⟨hc, _⟩ | hc
      · exact Or.inl (eq_of_beq hc)
      · exact Or.inr hc
    · intro hc
      rcases hc with hc | hc
      · exact Or.inl ⟨beq_iff_eq.mpr hc, trivial⟩
      · exact Or.inr hc

theorem splitLinesGo_cons_no_break (acc : List Char) (c : Char)
    (cs : List Char) (hc : isLineBreak c = false) :
    splitLinesGo acc (c :: cs) = splitLinesGo (c :: acc) cs := by
  unfold splitLinesGo
  rw [if_neg (by simp [hc])]
  rw [← splitLinesGo.eq_def]

theorem splitLinesGo_newline (acc rest : List Char) (hr : rest ≠ []) :
    splitLinesGo acc ('\x0a' :: rest) = acc.reverse :: splitLinesGo [] rest := by
  cases rest with
  | nil => exact absurd rfl hr
  | cons r rs => rfl

theorem splitLinesGo_no_break (a : List Char) :
    ∀ acc, (∀ c ∈ a, isLineBreak c = false) →
      splitLinesGo acc a = [acc.reverse ++ a] := by
  induction a with
  | nil =>
    intro acc _
    simp [splitLinesGo]
  | cons c rest ih =>
    intro acc h
    rw [splitLinesGo_cons_no_break acc c rest (h c (List.mem_cons_self c rest)),
      ih (c :: acc) (fun d hd => h d (List.mem_cons_of_mem c hd))]
    simp

theorem splitLinesGo_append (a : List Char) (rest : List Char) :
    ∀ acc, (∀ c ∈ a, isLineBreak c = false) → rest ≠ [] →
      splitLinesGo acc (a ++ '\x0a' :: rest)
        = (acc.reverse ++ a) :: splitLinesGo [] rest := by
  induction a with
  | nil =>
    intro acc _ hrest
    rw [List.nil_append, splitLinesGo_newline acc rest hrest]
    simp
  | cons c a' ih =>
    intro acc h hrest
    rw [List.cons_append,
      splitLinesGo_cons_no_break acc c _ (h c (List.mem_cons_self c a')),
      ih (c :: acc) (fun d hd => h d (List.mem_cons_of_mem c hd)) hrest]
    simp

theorem splitLines_of_ne_nil (l : List Char) (h : l ≠ []) :
    splitLines l = splitLinesGo [] l := by
  cases l with
  | nil => exact absurd rfl h
  | cons c rest => rfl

theorem joinLines_cons_data_ne_nil (l : String) (rest : List String)
    (h : l.data ≠ []) : (joinLines (l :: rest)).data ≠ [] := by
  cases rest with
  | nil => simpa [joinLines]
  | cons r rs =>
    show ((l ++ "\x0a") ++ joinLines (r :: rs)).data ≠ []
    rw [String.data_append, String.data_append]
    simp [h]

theorem splitLines_joinLines (lines : List String)
    (h1 : ∀ l ∈ lines, l.data ≠ [])
    (h2 : ∀ l ∈ lines, ∀ c ∈ l.data, isLineBreak c = false) :
    splitLines (joinLines lines).data = lines.map String.data := by
  induction lines with
  | nil => rfl
  | cons l rest ih =>
    have hl1 : l.data ≠ [] := h1 l (List.mem_cons_self l rest)
    have hl2 : ∀ c ∈ l.data, isLineBreak c = false :=
      h2 l (List.mem_cons_self l rest)
    cases rest with
    | nil =>
      show splitLines l.data = [l.data]
      rw [splitLines_of_ne_nil l.data hl1,
        splitLinesGo_no_break l.data [] hl2]
      simp
    | cons r rs =>
      have hJ : (joinLines (r :: rs)).data ≠ [] :=
        joinLines_cons_data_ne_nil r rs (h1 r (by simp))
      have hdata : (joinLines (l :: r :: rs)).data
          = l.data ++ '\x0a' :: (joinLines (r :: rs)).data := by
        show ((l ++ "\x0a") ++ joinLines (r :: rs)).data = _
        rw [String.data_append, String.data_append]
        simp
      rw [hdata, splitLines_of_ne_nil _ (by simp [hl1]),
        splitLinesGo_append l.data _ [] hl2 hJ]
      rw [← splitLines_of_ne_nil _ hJ]
      rw [ih (fun x hx => h1 x (List.mem_cons_of_mem l hx))
        (fun x hx => h2 x (List.mem_cons_of_mem l hx))]
      simp

/-! # Shared lemmas: decimal rendering and character classes -/

theorem parseNatChars_concat (l : List Char) (d : Char) :
    parseNatChars (l ++ [d]) = parseNatChars l * 10 + (d.toNat - 48) := by
  unfold parseNatChars
  rw [List.foldl_append]
  rfl

theorem digitChar_toNat (m : Nat) (h : m < 10) :
    (Char.ofNat (48 + m)).toNat = 48 + m := by
  interval_cases m <;> decide

theorem parseNatChars_natCharsF (fuel : Nat) :
    ∀ n, n ≤ fuel → parseNatChars (natCharsF fuel n) = n := by
  induction fuel with
  | zero =>
    intro n hn
    have h0 : n = 0 := by omega
    subst h0
    decide
  | succ fuel ih =>
    intro n hn
    by_cases h : n < 10
    · unfold natCharsF
      rw [if_pos h]
      unfold parseNatChars
      simp only [List.foldl_cons, List.foldl_nil]
      rw [digitChar_toNat n h]
      omega
    · unfold natCharsF
      rw [if_neg h, parseNatChars_concat,
        ih (n / 10) (by
          have hd := Nat.div_lt_self (show 0 < n by omega) (show 1 < 10 by omega)
          omega),
        digitChar_toNat (n % 10) (Nat.mod_lt n (by omega))]
      omega

theorem parseNatChars_natChars (n : Nat) : parseNatChars (natChars n) = n :=
  parseNatChars_natCharsF n n (Nat.le_refl n)

theorem digitChar_isDigit (m : Nat) (h : m < 10) :
    isAsciiDigit (Char.ofNat (48 + m)) = true := by
  interval_cases m <;> decide

theorem natCharsF_all_digits (fuel : Nat) :
    ∀ n, (natCharsF fuel n).all isAsciiDigit = true := by
  induction fuel with
  | zero =>
    intro n
    show ([Char.ofNat (48 + n % 10)].all isAsciiDigit) = true
    simp only [List.all_cons, List.all_nil, Bool.and_true]
    exact digitChar_isDigit (n % 10) (Nat.mod_lt n (by omega))
  | succ fuel ih =>
    intro n
    by_cases h : n < 10
    · unfold natCharsF
      rw [if_pos h]
      simp only [List.all_cons, List.all_nil, Bool.and_true]
      exact digitChar_isDigit n h
    · unfold natCharsF
      rw [if_neg h, List.all_append]
      rw [ih (n / 10)]
      simp only [List.all_cons, List.all_nil, Bool.and_true, Bool.true_and]
      exact digitChar_isDigit (n % 10) (Nat.mod_lt n (by omega))

theorem natChars_all_digits (n : Nat) : (natChars n).all isAsciiDigit = true :=
  natCharsF_all_digits n n

theorem natCharsF_ne_nil (fuel n : Nat) : natCharsF fuel n ≠ [] := by
  cases fuel with
  | zero => simp [natCharsF]
  | succ fuel =>
    unfold natCharsF
    split
    · simp
    · simp

theorem natChars_ne_nil (n : Nat) : natChars n ≠ [] :=
  natCharsF_ne_nil n n

theorem digit_not_space (c : Char) (h : isAsciiDigit c = true) :
    pyIsSpace c = false := by
  rw [Bool.eq_false_iff]
  intro hs
  unfold isAsciiDigit at h
  unfold pyIsSpace at hs
  simp only [Bool.or_eq_true, Bool.and_eq_true, decide_eq_true_eq,
    beq_iff_eq] at h hs
  omega

theorem digit_not_break (c : Char) (h : isAsciiDigit c = true) :
    isLineBreak c = false := by
  rw [Bool.eq_false_iff]
  intro hs
  unfold isAsciiDigit at h
  unfold isLineBreak at hs
  simp only [Bool.or_eq_true, Bool.and_eq_true, decide_eq_true_eq,
    beq_iff_eq] at h hs
  omega

theorem toLower_eq_self_of_lt (c : Char) (h : c.toNat < 65) :
    c.toLower = c := by
  unfold Char.toLower
  rw [if_neg (by omega)]

theorem digit_toNat_lt (c : Char) (h : isAsciiDigit c = true) :
    c.toNat < 65 := by
  unfold isAsciiDigit at h
  simp only [Bool.and_eq_true, decide_eq_true_eq] at h
  omega

theorem pyLower_eq_self_of_lt (s : String)
    (h : ∀ c ∈ s.data, c.toNat < 65) : pyLower s = s := by
  unfold pyLower
  have h2 : s.data.map Char.toLower = s.data.map id :=
    List.map_congr_left (fun c hc => toLower_eq_self_of_lt c (h c hc))
  rw [h2, List.map_id]

theorem dash_beq_digit_false (d : Char) (h : isAsciiDigit d = true) :
    ('-' == d) = false := by
  by_contra hc
  rw [Bool.not_eq_false] at hc
  have h2 : '-' = d := eq_of_beq hc
  rw [← h2] at h
  exact absurd h (by decide)

theorem true_values_digit_eq_one :
    ∀ x ∈ TRUE_VALUES, (!x.data.isEmpty && x.data.all isAsciiDigit) = true →
      x = "1" := by
  decide

theorem false_values_digit_eq_zero :
    ∀ x ∈ FALSE_VALUES, (!x.data.isEmpty && x.data.all isAsciiDigit) = true →
      x = "0" := by
  decide

theorem true_values_no_dash :
    ∀ x ∈ TRUE_VALUES, (x.data.head? == some '-') = false := by
  decide

theorem false_values_no_dash :
    ∀ x ∈ FALSE_VALUES, (x.data.head? == some '-') = false := by
  decide

theorem contains_iff_mem_str (l : List String) (x : String) :
    l.contains x = true ↔ x ∈ l := by
  induction l with
  | nil => simp
  | cons y rest ih =>
    rw [List.contains_cons, Bool.or_eq_true, ih]
    constructor
    · intro h
      rcases h with h | h
      · exact List.mem_cons.mpr (Or.inl (eq_of_beq h))
      · exact List.mem_cons.mpr (Or.inr h)
    · intro h
      rcases List.mem_cons.mp h with h | h
      · exact Or.inl (beq_iff_eq.mpr h)
      · exact Or.inr h

theorem intToString_data_nonneg (n : Int) (h : 0 ≤ n) :
    (intToString n).data = natChars n.natAbs := by
  unfold intToString
  rw [if_neg (by omega)]

theorem intToString_data_neg (n : Int) (h : n < 0) :
    (intToString n).data = '-' :: natChars n.natAbs := by
  unfold intToString
  rw [if_pos h]

/-! # Shared lemmas: quoting and the parses of rendered values -/

theorem escape_flatten_eq (l : List Char) (h : ∀ c ∈ l, ¬(c = '"')) :
    ((l.map (fun c => if c = '"' then ['\\', '"'] else [c])).flatten) = l := by
  induction l with
  | nil => rfl
  | cons c rest ih =>
    simp only [List.map_cons, List.flatten_cons]
    rw [if_neg (h c (List.mem_cons_self c rest)),
      ih (fun d hd => h d (List.mem_cons_of_mem c hd))]
    rfl

theorem escapeQuotes_eq_self (s : String) (h : ∀ c ∈ s.data, ¬(c = '"')) :
    escapeQuotes s = s := by
  unfold escapeQuotes
  rw [escape_flatten_eq s.data h]

theorem isPrefixOf_single_mem (c : Char) (l : List Char)
    (h : List.isPrefixOf [c] l = true) : c ∈ l := by
  cases l with
  | nil => exact Bool.noConfusion h
  | cons d rest =>
    simp only [List.isPrefixOf, Bool.and_eq_true] at h
    exact List.mem_cons.mpr (Or.inl (eq_of_beq h.1))

theorem isSuffixOf_single_mem (c : Char) (l : List Char)
    (h : List.isSuffixOf [c] l = true) : c ∈ l := by
  unfold List.isSuffixOf at h
  exact List.mem_reverse.mp (isPrefixOf_single_mem c l.reverse (by simpa using h))

theorem stripQuotesUtils_no_quotes (s : String)
    (h1 : ∀ c ∈ s.data, ¬(c = '"')) (h2 : ∀ c ∈ s.data, ¬(c = '\'')) :
    stripQuotesUtils s = s := by
  unfold stripQuotesUtils
  split
  · have hcond : ¬(((strStarts s "\"" && strEnds s "\"")
        || (strStarts s "'" && strEnds s "'")) = true) := by
      intro hc
      rw [Bool.or_eq_true, Bool.and_eq_true, Bool.and_eq_true] at hc
      rcases hc with ⟨hs, _⟩ | ⟨hs, _⟩
      · exact h1 '"' (isPrefixOf_single_mem '"' s.data hs) rfl
      · exact h2 '\'' (isPrefixOf_single_mem '\'' s.data hs) rfl
    rw [if_neg hcond]
  · rfl

theorem stripChars_eq_self_of_classes (l : List Char)
    (h : ∀ c ∈ l, pyIsSpace c = false) : stripChars l = l := by
  apply stripChars_eq_self_of_ends
  · intro c hc
    exact h c (List.mem_of_mem_head? (by simp [hc]))
  · intro c hc
    exact h c (List.mem_of_getLast?_eq_some hc)

theorem pyStrip_eq_self_of_classes (s : String)
    (h : ∀ c ∈ s.data, pyIsSpace c = false) : pyStrip s = s := by
  unfold pyStrip
  rw [stripChars_eq_self_of_classes s.data h]

/-- The parse of a rendered nonnegative integer hits the integer branch with
the original value. -/
theorem parse_env_value_intToString (n : Int)
    (hlo : INT64_MIN ≤ n) (hhi : n ≤ INT64_MAX) (h0 : n ≠ 0) (h1 : n ≠ 1) :
    parse_env_value (intToString n) = .int n := by
  rcases le_or_lt 0 n with hpos | hneg
  · -- nonnegative: the text is the bare digit string
    have hdata : (intToString n).data = natChars n.natAbs :=
      intToString_data_nonneg n hpos
    have hdigits : ∀ c ∈ (intToString n).data, isAsciiDigit c = true := by
      rw [hdata]
      exact fun c hc => List.all_eq_true.mp (natChars_all_digits n.natAbs) c hc
    have hne : (intToString n).data ≠ [] := by
      rw [hdata]
      exact natChars_ne_nil n.natAbs
    have hstrip : pyStrip (intToString n) = intToString n :=
      pyStrip_eq_self_of_classes _ (fun c hc => digit_not_space c (hdigits c hc))
    have hlower : pyLower (intToString n) = intToString n :=
      pyLower_eq_self_of_lt _ (fun c hc => digit_toNat_lt c (hdigits c hc))
    have hsne : intToString n ≠ "" := by
      intro hc
      rw [hc] at hne
      exact hne rfl
    have hparse : parseNatChars (intToString n).data = n.natAbs := by
      rw [hdata]
      exact parseNatChars_natChars n.natAbs
    have hdig : pyIsDigit (intToString n) = true := by
      unfold pyIsDigit
      simp only [Bool.and_eq_true, Bool.not_eq_true']
      exact ⟨by simpa using hne, List.all_eq_true.mpr hdigits⟩
    have hT : TRUE_VALUES.contains (pyLower (intToString n)) = false := by
      rw [Bool.eq_false_iff]
      intro hc
      rw [hlower] at hc
      have hmem := (contains_iff_mem_str _ _).mp hc
      have heq1 := true_values_digit_eq_one (intToString n) hmem
        (by simp only [Bool.and_eq_true, Bool.not_eq_true']
            exact ⟨by simpa using hne, List.all_eq_true.mpr hdigits⟩)
      have : n.natAbs = 1 := by
        rw [← hparse, heq1]
        decide
      omega
    have hF : FALSE_VALUES.contains (pyLower (intToString n)) = false := by
      rw [Bool.eq_false_iff]
      intro hc
      rw [hlower] at hc
      have hmem := (contains_iff_mem_str _ _).mp hc
      have heq0 := false_values_digit_eq_zero (intToString n) hmem
        (by simp only [Bool.and_eq_true, Bool.not_eq_true']
            exact ⟨by simpa using hne, List.all_eq_true.mpr hdigits⟩)
      have : n.natAbs = 0 := by
        rw [← hparse, heq0]
        decide
      omega
    have hint : pyIntOfDigitish (intToString n) = n := by
      unfold pyIntOfDigitish
      have hnd : strStarts (intToString n) "-" = false := by
        obtain ⟨d, rest, hcons⟩ := List.exists_cons_of_ne_nil hne
        show List.isPrefixOf ['-'] (intToString n).data = false
        rw [hcons]
        simp only [List.isPrefixOf, Bool.and_eq_true]
        rw [dash_beq_digit_false d (hdigits d (by rw [hcons]; exact List.mem_cons_self d rest))]
        rfl
      rw [if_neg (by simp [hnd]), hparse]
      omega
    unfold parse_env_value
    rw [hstrip, if_neg hsne, if_neg (by rw [hT]; simp), if_neg (by rw [hF]; simp),
      if_pos (by rw [hdig]; simp), hint, if_pos ⟨hlo, hhi⟩]
  · -- negative: a leading '-' then the digit string
    have hdata : (intToString n).data = '-' :: natChars n.natAbs :=
      intToString_data_neg n hneg
    have hdigits : ∀ c ∈ natChars n.natAbs, isAsciiDigit c = true :=
      fun c hc => List.all_eq_true.mp (natChars_all_digits n.natAbs) c hc
    have hclasses : ∀ c ∈ (intToString n).data, pyIsSpace c = false := by
      rw [hdata]
      intro c hc
      rcases List.mem_cons.mp hc with hc | hc
      · rw [hc]; decide
      · exact digit_not_space c (hdigits c hc)
    have hstrip : pyStrip (intToString n) = intToString n :=
      pyStrip_eq_self_of_classes _ hclasses
    have hlower : pyLower (intToString n) = intToString n := by
      apply pyLower_eq_self_of_lt
      rw [hdata]
      intro c hc
      rcases List.mem_cons.mp hc with hc | hc
      · rw [hc]; decide
      · exact digit_toNat_lt c (hdigits c hc)
    have hsne : intToString n ≠ "" := by
      intro hc
      have h2 := congrArg String.data hc
      rw [hdata] at h2
      exact List.noConfusion h2
    have hhead : (intToString n).data.head? = some '-' := by
      rw [hdata]
      rfl
    have hT : TRUE_VALUES.contains (pyLower (intToString n)) = false := by
      rw [Bool.eq_false_iff]
      intro hc
      rw [hlower] at hc
      have hmem := (contains_iff_mem_str _ _).mp hc
      have h2 := true_values_no_dash (intToString n) hmem
      rw [hhead] at h2
      exact absurd h2 (by decide)
    have hF : FALSE_VALUES.contains (pyLower (intToString n)) = false := by
      rw [Bool.eq_false_iff]
      intro hc
      rw [hlower] at hc
      have hmem := (contains_iff_mem_str _ _).mp hc
      have h2 := false_values_no_dash (intToString n) hmem
      rw [hhead] at h2
      exact absurd h2 (by decide)
    have hstarts : strStarts (intToString n) "-" = true := by
      show List.isPrefixOf ['-'] (intToString n).data = true
      rw [hdata]
      simp [List.isPrefixOf]
    have hdig2 : pyIsDigit (String.mk ((intToString n).data.drop 1)) = true := by
      rw [hdata]
      unfold pyIsDigit
      simp only [Bool.and_eq_true, Bool.not_eq_true']
      constructor
      · simpa using natChars_ne_nil n.natAbs
      · exact List.all_eq_true.mpr hdigits
    have hint : pyIntOfDigitish (intToString n) = n := by
      unfold pyIntOfDigitish
      rw [if_pos hstarts, hdata]
      show -(parseNatChars (natChars n.natAbs) : Int) = n
      rw [parseNatChars_natChars]
      omega
    unfold parse_env_value
    rw [hstrip, if_neg hsne, if_neg (by rw [hT]; simp), if_neg (by rw [hF]; simp),
      if_pos (by rw [hstarts, hdig2]; simp), hint, if_pos ⟨hlo, hhi⟩]

/-- The parse of a `goodStrVal` string is the string itself. -/
theorem parse_env_value_goodStr (s : String) (hs : goodStrVal s = true) :
    parse_env_value s = .str s := by
  by_cases hne : s = ""
  · subst hne
    decide
  · unfold goodStrVal at hs
    simp only [Bool.and_eq_true] at hs
    obtain ⟨⟨⟨h0, h1⟩, h2⟩, h3⟩ := hs
    have hstrip : pyStrip s = s := eq_of_beq h1
    have hemp : (s == "") = false := by
      rw [Bool.eq_false_iff]
      intro hc
      exact hne (eq_of_beq hc)
    rw [Bool.or_eq_true] at h3
    rcases h3 with h3 | h3
    · rw [hemp] at h3
      exact Bool.noConfusion h3
    · simp only [Bool.and_eq_true, Bool.not_eq_true'] at h3
      obtain ⟨⟨hTF, hD⟩, hdot⟩ := h3
      have hT : TRUE_VALUES.contains (pyLower s) = false := by
        rcases Bool.or_eq_false_iff.mp hTF with ⟨h, _⟩
        exact h
      have hF : FALSE_VALUES.contains (pyLower s) = false := by
        rcases Bool.or_eq_false_iff.mp hTF with ⟨_, h⟩
        exact h
      have hdot2 : strContains s "." = false := by
        rw [Bool.eq_false_iff]
        intro hc
        have hmem := (containsSub_singleton_iff '.' s.data).mp hc
        have h4 := List.any_eq_false.mp hdot '.' hmem
        exact absurd h4 (by decide)
      unfold parse_env_value
      rw [hstrip, if_neg hne, if_neg (by rw [hT]; simp),
        if_neg (by rw [hF]; simp), if_neg (by rw [hD]; simp),
        if_neg (by rw [hdot2]; simp)]

/-! # Shared lemmas: parsing one exported line -/

theorem data_append3 (k w : String) :
    (k ++ "=" ++ w).data = k.data ++ '=' :: w.data := by
  rw [String.data_append, String.data_append]
  simp

theorem str_eq_mk_cat (k w : String) :
    k ++ "=" ++ w = String.mk (k.data ++ '=' :: w.data) := by
  rw [← data_append3 k w]

theorem goodKey_facts (k : String) (hk : goodKey k = true) :
    k.data ≠ [] ∧ pyStrip k = k ∧
    (∀ c ∈ k.data, (c == '=' || isLineBreak c) = false) ∧
    strStarts k "#" = false := by
  unfold goodKey at hk
  simp only [Bool.and_eq_true, Bool.not_eq_true'] at hk
  obtain ⟨⟨⟨h1, h2⟩, h3⟩, h4⟩ := hk
  refine ⟨?_, eq_of_beq h2,
    fun c hc => eq_false_of_ne_true (List.any_eq_false.mp h3 c hc), h4⟩
  intro hc
  rw [hc] at h1
  exact absurd h1 (by decide)

theorem parse_env_line_keyed (k w : String) (hk : goodKey k = true)
    (hwstrip : stripChars w.data = w.data) :
    parse_env_line (String.mk (k.data ++ '=' :: w.data))
      = some (k, parse_env_value (stripQuotesUtils w)) := by
  obtain ⟨hk1, hk2, hk3, hk4⟩ := goodKey_facts k hk
  obtain ⟨c, k', hck⟩ := List.exists_cons_of_ne_nil hk1
  have hkstrip : stripChars k.data = k.data := congrArg String.data hk2
  have hline : pyStrip (String.mk (k.data ++ '=' :: w.data))
      = String.mk (k.data ++ '=' :: w.data) := by
    unfold pyStrip
    congr 1
    apply stripChars_eq_self_of_ends
    · intro d hd
      rw [hck, List.cons_append, List.head?_cons] at hd
      injection hd with hd
      rw [← hd]
      exact head_not_space_of_stripChars_eq c k' (hck ▸ hkstrip)
    · intro d hd
      cases hw : w.data with
      | nil =>
        rw [hw, List.getLast?_concat] at hd
        injection hd with hd
        rw [← hd]
        decide
      | cons w0 ws =>
        rw [hw] at hd
        rw [List.getLast?_append_of_ne_nil _ (by simp)] at hd
        have hd2 : (w0 :: ws).getLast? = some d := by
          have h6 : ('=' :: w0 :: ws) = ['='] ++ (w0 :: ws) := by simp
          rw [h6, List.getLast?_append_of_ne_nil _ (by simp)] at hd
          exact hd
        exact last_not_space_of_stripChars_eq w.data hwstrip d
          (by rw [hw]; exact hd2)
  unfold parse_env_line
  rw [hline]
  have hcomment : strStarts (String.mk (k.data ++ '=' :: w.data)) "#" = false := by
    show List.isPrefixOf ['#'] (k.data ++ '=' :: w.data) = false
    rw [hck, List.cons_append]
    have h4 : List.isPrefixOf ['#'] (c :: k') = false := by
      have h5 := hk4
      unfold strStarts at h5
      rw [hck] at h5
      exact h5
    simp only [List.isPrefixOf, Bool.and_eq_true] at h4 ⊢
    simpa using h4
  have hnonempty : ¬(String.mk (k.data ++ '=' :: w.data) = "") := by
    intro hc
    have h2 := congrArg String.data hc
    rw [hck] at h2
    simp at h2
  rw [if_neg (by rw [hcomment]; simp [hnonempty])]
  have hhasEq : strContains (String.mk (k.data ++ '=' :: w.data)) "=" = true := by
    show containsSub ['='] (k.data ++ '=' :: w.data) = true
    rw [containsSub_singleton_iff]
    exact List.mem_append.mpr (Or.inr (List.mem_cons_self _ _))
  rw [if_neg (by rw [hhasEq]; simp)]
  have hpart : partitionEq (String.mk (k.data ++ '=' :: w.data)).data
      = (k.data, w.data) := by
    show partitionEq (k.data ++ '=' :: w.data) = _
    apply partitionEq_append
    intro d hd
    have h5 := hk3 d hd
    rw [Bool.or_eq_false_iff] at h5
    have h6 : d ≠ '=' := by
      intro hc
      rw [hc] at h5
      exact absurd h5.1 (by decide)
    simp [h6]
  rw [hpart]
  simp only
  have hmkk : String.mk k.data = k := rfl
  have hmkw : String.mk w.data = w := rfl
  rw [hmkk, hmkw, hk2]
  have hwstr : pyStrip w = w := by
    unfold pyStrip
    rw [hwstrip]
  rw [hwstr]
  have hkne : ¬(k = "") := by
    intro hc
    rw [hc] at hk1
    exact hk1 rfl
  rw [if_neg hkne]

theorem string_data_ext (a b : String) (h : a.data = b.data) : a = b := by
  have h2 := congrArg String.mk h
  exact h2

theorem digit_ne_quote (c : Char) (h : isAsciiDigit c = true) : ¬(c = '"') := by
  intro hc
  rw [hc] at h
  exact absurd h (by decide)

theorem digit_ne_squote (c : Char) (h : isAsciiDigit c = true) : ¬(c = '\'') := by
  intro hc
  rw [hc] at h
  exact absurd h (by decide)

theorem intToString_chars (n : Int) :
    ∀ c ∈ (intToString n).data, isAsciiDigit c = true ∨ c = '-' := by
  rcases le_or_lt 0 n with hpos | hneg
  · rw [intToString_data_nonneg n hpos]
    intro c hc
    exact Or.inl (List.all_eq_true.mp (natChars_all_digits n.natAbs) c hc)
  · rw [intToString_data_neg n hneg]
    intro c hc
    rcases List.mem_cons.mp hc with hc | hc
    · exact Or.inr hc
    · exact Or.inl (List.all_eq_true.mp (natChars_all_digits n.natAbs) c hc)

theorem goodStr_no_quote (s : String) (hs : goodStrVal s = true) :
    ∀ c ∈ s.data, ¬(c = '"') := by
  unfold goodStrVal at hs
  simp only [Bool.and_eq_true, Bool.not_eq_true'] at hs
  intro c hc hcq
  have h2 := List.any_eq_false.mp hs.1.2 c hc
  rw [hcq] at h2
  simp at h2

theorem goodStr_no_break (s : String) (hs : goodStrVal s = true) :
    ∀ c ∈ s.data, isLineBreak c = false := by
  unfold goodStrVal at hs
  simp only [Bool.and_eq_true, Bool.not_eq_true'] at hs
  intro c hc
  have h2 := eq_false_of_ne_true (List.any_eq_false.mp hs.1.2 c hc)
  rw [Bool.or_eq_false_iff] at h2
  exact h2.2

theorem goodStr_strip (s : String) (hs : goodStrVal s = true) :
    stripChars s.data = s.data := by
  unfold goodStrVal at hs
  simp only [Bool.and_eq_true] at hs
  exact congrArg String.data (eq_of_beq hs.1.1.2)

theorem parse_line_export_bool (k : String) (hk : goodKey k = true) (b : Bool) :
    parse_env_line (export_line k (.bool b)) = some (k, .bool b) := by
  cases b
  · have h1 : export_line k (.bool false) = k ++ "=" ++ "False" := rfl
    rw [h1, str_eq_mk_cat, parse_env_line_keyed k "False" hk (by decide)]
    have h2 : parse_env_value (stripQuotesUtils "False") = .bool false := by
      decide
    rw [h2]
  · have h1 : export_line k (.bool true) = k ++ "=" ++ "True" := rfl
    rw [h1, str_eq_mk_cat, parse_env_line_keyed k "True" hk (by decide)]
    have h2 : parse_env_value (stripQuotesUtils "True") = .bool true := by
      decide
    rw [h2]

theorem parse_line_export_int (k : String) (hk : goodKey k = true) (n : Int)
    (hlo : INT64_MIN ≤ n) (hhi : n ≤ INT64_MAX) (h0 : n ≠ 0) (h1 : n ≠ 1) :
    parse_env_line (export_line k (.int n)) = some (k, .int n) := by
  have he : export_line k (.int n) = k ++ "=" ++ intToString n := rfl
  have hstrip : stripChars (intToString n).data = (intToString n).data := by
    apply stripChars_eq_self_of_classes
    intro c hc
    rcases intToString_chars n c hc with hd | hd
    · exact digit_not_space c hd
    · rw [hd]
      decide
  rw [he, str_eq_mk_cat, parse_env_line_keyed k (intToString n) hk hstrip]
  have hq : stripQuotesUtils (intToString n) = intToString n := by
    apply stripQuotesUtils_no_quotes
    · intro c hc
      rcases intToString_chars n c hc with hd | hd
      · exact digit_ne_quote c hd
      · rw [hd]
        decide
    · intro c hc
      rcases intToString_chars n c hc with hd | hd
      · exact digit_ne_squote c hd
      · rw [hd]
        decide
  rw [hq, parse_env_value_intToString n hlo hhi h0 h1]

theorem stripQuotesUtils_quoted (s : String) :
    stripQuotesUtils (String.mk ('"' :: (s.data ++ ['"']))) = s := by
  unfold stripQuotesUtils
  have hlen : 2 ≤ (String.mk ('"' :: (s.data ++ ['"']))).data.length := by
    show 2 ≤ ('"' :: (s.data ++ ['"'])).length
    simp
  have hcond : ((strStarts (String.mk ('"' :: (s.data ++ ['"']))) "\""
      && strEnds (String.mk ('"' :: (s.data ++ ['"']))) "\"")
      || (strStarts (String.mk ('"' :: (s.data ++ ['"']))) "'"
      && strEnds (String.mk ('"' :: (s.data ++ ['"']))) "'")) = true := by
    rw [Bool.or_eq_true]
    left
    rw [Bool.and_eq_true]
    constructor
    · show List.isPrefixOf ['"'] ('"' :: (s.data ++ ['"'])) = true
      simp [List.isPrefixOf]
    · show List.isSuffixOf ['"'] ('"' :: (s.data ++ ['"'])) = true
      rw [show ('"' :: (s.data ++ ['"'])) = ('"' :: s.data) ++ ['"'] by simp]
      simp [List.isSuffixOf]
  rw [if_pos hlen, if_pos hcond]
  show String.mk (((('"' :: (s.data ++ ['"']))).drop 1).dropLast) = s
  rw [List.drop_one, List.tail_cons, List.dropLast_concat]

theorem parse_line_export_str (k : String) (hk : goodKey k = true) (s : String)
    (hs : goodStrVal s = true) :
    parse_env_line (export_line k (.str s)) = some (k, .str s) := by
  by_cases hq : (strContains s " " || strContains s "\"" || strContains s "'") = true
  · have hesc : escapeQuotes s = s := escapeQuotes_eq_self s (goodStr_no_quote s hs)
    have he : export_line k (.str s)
        = k ++ "=" ++ String.mk ('"' :: (s.data ++ ['"'])) := by
      show (if (strContains s " " || strContains s "\"" || strContains s "'") = true
        then k ++ "=\"" ++ escapeQuotes s ++ "\"" else k ++ "=" ++ s) = _
      rw [if_pos hq, hesc]
      apply string_data_ext
      rw [data_append3]
      rw [String.data_append, String.data_append, String.data_append]
      simp
    have hstrip : stripChars ('"' :: (s.data ++ ['"']))
        = '"' :: (s.data ++ ['"']) := by
      apply stripChars_eq_self_of_ends
      · intro d hd
        rw [List.head?_cons] at hd
        injection hd with hd
        rw [← hd]
        decide
      · intro d hd
        rw [show ('"' :: (s.data ++ ['"'])) = ('"' :: s.data) ++ ['"'] by simp,
          List.getLast?_concat] at hd
        injection hd with hd
        rw [← hd]
        decide
    rw [he, str_eq_mk_cat,
      parse_env_line_keyed k (String.mk ('"' :: (s.data ++ ['"']))) hk hstrip,
      stripQuotesUtils_quoted s,
      parse_env_value_goodStr s hs]
  · have he : export_line k (.str s) = k ++ "=" ++ s := by
      show (if (strContains s " " || strContains s "\"" || strContains s "'") = true
        then k ++ "=\"" ++ escapeQuotes s ++ "\"" else k ++ "=" ++ s) = _
      rw [if_neg hq]
    have hnq : ∀ c ∈ s.data, ¬(c = '\'') := by
      intro c hc hcq
      apply hq
      rw [Bool.or_eq_true, Bool.or_eq_true]
      right
      show containsSub ("'" : String).data s.data = true
      rw [show ("'" : String).data = ['\''] from rfl, containsSub_singleton_iff]
      exact hcq ▸ hc
    rw [he, str_eq_mk_cat, parse_env_line_keyed k s hk (goodStr_strip s hs),
      stripQuotesUtils_no_quotes s (goodStr_no_quote s hs) hnq,
      parse_env_value_goodStr s hs]

theorem goodKey_no_break (k : String) (hk : goodKey k = true) :
    ∀ c ∈ k.data, isLineBreak c = false := by
  intro c hc
  have h := (goodKey_facts k hk).2.2.1 c hc
  rw [Bool.or_eq_false_iff] at h
  exact h.2

theorem export_line_str_quoted_data (k s : String) (hs : goodStrVal s = true)
    (hq : (strContains s " " || strContains s "\"" || strContains s "'") = true) :
    (export_line k (EnvValue.str s)).data
      = k.data ++ '=' :: '"' :: (s.data ++ ['"']) := by
  show ((if (strContains s " " || strContains s "\"" || strContains s "'") = true
    then k ++ "=\"" ++ escapeQuotes s ++ "\"" else k ++ "=" ++ s)).data = _
  rw [if_pos hq, escapeQuotes_eq_self s (goodStr_no_quote s hs)]
  rw [String.data_append, String.data_append, String.data_append]
  simp

theorem export_line_line_ok (k : String) (hk : goodKey k = true) (v : EnvValue)
    (hv : GoodValue v) :
    (export_line k v).data ≠ [] ∧
    (∀ c ∈ (export_line k v).data, isLineBreak c = false) := by
  have hkb := goodKey_no_break k hk
  cases v with
  | bool b =>
    have hshape : export_line k (EnvValue.bool b)
        = k ++ "=" ++ pyStr (EnvValue.bool b) := rfl
    have hw : ∀ c ∈ (pyStr (EnvValue.bool b)).data, isLineBreak c = false := by
      cases b <;> decide
    rw [hshape, data_append3]
    refine ⟨by simp, ?_⟩
    intro c hc
    rcases List.mem_append.mp hc with hc | hc
    · exact hkb c hc
    · rcases List.mem_cons.mp hc with hc | hc
      · rw [hc]
        decide
      · exact hw c hc
  | int n =>
    have hshape : export_line k (EnvValue.int n)
        = k ++ "=" ++ intToString n := rfl
    rw [hshape, data_append3]
    refine ⟨by simp, ?_⟩
    intro c hc
    rcases List.mem_append.mp hc with hc | hc
    · exact hkb c hc
    · rcases List.mem_cons.mp hc with hc | hc
      · rw [hc]
        decide
      · rcases intToString_chars n c hc with hd | hd
        · exact digit_not_break c hd
        · rw [hd]
          decide
  | float raw => exact hv.elim
  | str s =>
    have hsv : goodStrVal s = true := hv
    have hsb := goodStr_no_break s hsv
    by_cases hq : (strContains s " " || strContains s "\"" || strContains s "'") = true
    · rw [export_line_str_quoted_data k s hsv hq]
      refine ⟨by simp, ?_⟩
      intro c hc
      rcases List.mem_append.mp hc with hc | hc
      · exact hkb c hc
      · rcases List.mem_cons.mp hc with hc | hc
        · rw [hc]
          decide
        · rcases List.mem_cons.mp hc with hc | hc
          · rw [hc]
            decide
          · rcases List.mem_append.mp hc with hc | hc
            · exact hsb c hc
            · rw [List.mem_singleton.mp hc]
              decide
    · have hshape : export_line k (EnvValue.str s) = k ++ "=" ++ s := by
        show (if (strContains s " " || strContains s "\"" || strContains s "'") = true
          then k ++ "=\"" ++ escapeQuotes s ++ "\"" else k ++ "=" ++ s) = _
        rw [if_neg hq]
      rw [hshape, data_append3]
      refine ⟨by simp, ?_⟩
      intro c hc
      rcases List.mem_append.mp hc with hc | hc
      · exact hkb c hc
      · rcases List.mem_cons.mp hc with hc | hc
        · rw [hc]
          decide
        · exact hsb c hc

theorem foldl_parse_export (items : List (String × EnvValue))
    (hparse : ∀ p ∈ items, parse_env_line (export_line p.1 p.2) = some p) :
    ∀ acc : List (String × EnvValue),
      (items.map (fun p => export_line p.1 p.2)).foldl
        (fun m line =>
          match parse_env_line line with
          | none => m
          | some kv => dictSet m kv.1 kv.2) acc
      = items.foldl (fun m p => dictSet m p.1 p.2) acc := by
  induction items with
  | nil => intro acc; rfl
  | cons p rest ih =>
    intro acc
    simp only [List.map_cons, List.foldl_cons,
      hparse p (List.mem_cons_self p rest)]
    exact ih (fun q hq => hparse q (List.mem_cons_of_mem p hq))
      (dictSet acc p.1 p.2)

theorem hasKey_eq_false_iff {α : Type} (m : List (String × α)) (k : String) :
    hasKey m k = false ↔ k ∉ m.map Prod.fst := by
  unfold hasKey
  rw [← dictGet_eq_none_iff]
  cases dictGet m k <;> simp

theorem foldl_dictSet_append (items : List (String × EnvValue)) :
    ∀ acc : List (String × EnvValue),
      (items.map Prod.fst).Nodup →
      (∀ p ∈ items, hasKey acc p.1 = false) →
      items.foldl (fun m p => dictSet m p.1 p.2) acc = acc ++ items := by
  induction items with
  | nil =>
    intro acc _ _
    simp
  | cons p rest ih =>
    intro acc hnd hfresh
    rw [List.foldl_cons,
      dictSet_fresh acc p.1 p.2 (hfresh p (List.mem_cons_self p rest))]
    rw [List.map_cons, List.nodup_cons] at hnd
    have hfresh' : ∀ q ∈ rest, hasKey (acc ++ [(p.1, p.2)]) q.1 = false := by
      intro q hq
      rw [hasKey_eq_false_iff, List.map_append]
      intro hmem
      rcases List.mem_append.mp hmem with hmem | hmem
      · exact absurd hmem
          ((hasKey_eq_false_iff acc q.1).mp
            (hfresh q (List.mem_cons_of_mem p hq)))
      · apply hnd.1
        rw [← List.mem_singleton.mp hmem]
        exact List.mem_map_of_mem Prod.fst hq
    rw [ih (acc ++ [(p.1, p.2)]) hnd.2 hfresh']
    simp

theorem pairwise_lt_keys_nodup (m : List (String × EnvValue))
    (h : List.Pairwise (fun a b : String × EnvValue => a.1 < b.1) m) :
    (m.map Prod.fst).Nodup :=
  List.pairwise_map.mpr (h.imp (fun hlt => ne_of_lt hlt))

theorem dictGet_perm {α : Type} (l₁ l₂ : List (String × α))
    (h : l₁.Perm l₂) :
    (l₁.map Prod.fst).Nodup → ∀ k, dictGet l₁ k = dictGet l₂ k := by
  induction h with
  | nil =>
    intro _ k
    rfl
  | cons p h ih =>
    intro hnd k
    rw [List.map_cons, List.nodup_cons] at hnd
    by_cases hp : p.1 = k
    · simp [dictGet, hp]
    · simp [dictGet, hp, ih hnd.2 k]
  | swap x y l =>
    intro hnd k
    rw [List.map_cons, List.map_cons, List.nodup_cons] at hnd
    have hne : y.1 ≠ x.1 := by
      intro hc
      exact hnd.1 (by rw [hc]; exact List.mem_cons_self x.1 (l.map Prod.fst))
    by_cases h1 : y.1 = k <;> by_cases h2 : x.1 = k
    · exact absurd (h1.trans h2.symm) hne
    · simp [dictGet, h1, h2]
    · simp [dictGet, h1, h2]
    · simp [dictGet, h1, h2]
  | trans h₁ h₂ ih₁ ih₂ =>
    intro hnd k
    rw [ih₁ hnd k]
    exact ih₂ (((h₁.map Prod.fst).nodup_iff).mp hnd) k

theorem round_trip_lines (m : List (String × EnvValue))
    (hnodup : (m.map Prod.fst).Nodup)
    (hkeys : ∀ p ∈ m, goodKey p.1 = true)
    (hvals : ∀ p ∈ m, GoodValue p.2) :
    parse_env_content (joinLines (m.map (fun p => export_line p.1 p.2)))
      = m := by
  have hparse : ∀ p ∈ m, parse_env_line (export_line p.1 p.2) = some p := by
    intro p hp
    obtain ⟨pk, pv⟩ := p
    cases pv with
    | bool b => exact parse_line_export_bool pk (hkeys ⟨pk, .bool b⟩ hp) b
    | int n =>
      have hv := hvals ⟨pk, .int n⟩ hp
      exact parse_line_export_int pk (hkeys ⟨pk, .int n⟩ hp) n
        hv.1 hv.2.1 hv.2.2.1 hv.2.2.2
    | float raw => exact (hvals ⟨pk, .float raw⟩ hp).elim
    | str s =>
      exact parse_line_export_str pk (hkeys ⟨pk, .str s⟩ hp) s
        (hvals ⟨pk, .str s⟩ hp)
  have hlineok : ∀ p ∈ m, (export_line p.1 p.2).data ≠ [] ∧
      (∀ c ∈ (export_line p.1 p.2).data, isLineBreak c = false) :=
    fun p hp => export_line_line_ok p.1 (hkeys p hp) p.2 (hvals p hp)
  unfold parse_env_content
  rw [splitLines_joinLines (m.map (fun p => export_line p.1 p.2))
    (by
      intro l hl
      obtain ⟨p, hp, hpe⟩ := List.mem_map.mp hl
      rw [← hpe]
      exact (hlineok p hp).1)
    (by
      intro l hl
      obtain ⟨p, hp, hpe⟩ := List.mem_map.mp hl
      rw [← hpe]
      exact (hlineok p hp).2)]
  rw [List.map_map, show String.mk ∘ String.data = id from rfl, List.map_id]
  rw [foldl_parse_export m hparse []]
  rw [foldl_dictSet_append m [] hnodup (fun p _ => rfl)]
  rfl

/-- C8: exporting a map with distinct well-behaved keys and faithfully
spelled values and re-parsing the text returns exactly the key-sorted
permutation of the map — the same mapping under lookup, in the key order the
exporter itself imposes. -/
theorem export_round_trip (m : List (String × EnvValue))
    (hnodup : (m.map Prod.fst).Nodup)
    (hkeys : ∀ p ∈ m, goodKey p.1 = true)
    (hvals : ∀ p ∈ m, GoodValue p.2) :
    parse_env_content (export_to_env_format m)
      = m.insertionSort (fun a b => a.1 ≤ b.1) ∧
    ∀ k, dictGet (parse_env_content (export_to_env_format m)) k
      = dictGet m k := by
  have hperm : (m.insertionSort (fun a b => a.1 ≤ b.1)).Perm m :=
    List.perm_insertionSort _ m
  have hnodup' : ((m.insertionSort (fun a b => a.1 ≤ b.1)).map
      Prod.fst).Nodup :=
    ((hperm.map Prod.fst).nodup_iff).mpr hnodup
  have hmain : parse_env_content (export_to_env_format m)
      = m.insertionSort (fun a b => a.1 ≤ b.1) :=
    round_trip_lines (m.insertionSort (fun a b => a.1 ≤ b.1)) hnodup'
      (fun p hp => hkeys p (hperm.subset hp))
      (fun p hp => hvals p (hperm.subset hp))
  refine ⟨hmain, ?_⟩
  intro k
  rw [hmain]
  exact dictGet_perm _ _ hperm hnodup' k

/-- C8 counterexample: a String value spelled like a boolean does not
round-trip — the exported line re-parses as a Boolean, so the claim's
unconditional quantification over all String values fails. -/
theorem export_round_trip_boolean_spelling_fails :
    parse_env_content (export_to_env_format [("K", EnvValue.str "true")])
      = [("K", EnvValue.bool true)] ∧
    parse_env_content (export_to_env_format [("K", EnvValue.str "true")])
      ≠ [("K", EnvValue.str "true")] := by
  constructor
  · decide
  · decide

/-- C8 witness: the round trip at a concrete unsorted three-entry map with a
Boolean, an Integer, and a quoted String value, checked both as the sorted
list and under lookup of a concrete key. -/
theorem export_round_trip_witness :
    parse_env_content (export_to_env_format
      [("BETA", EnvValue.bool true), ("ALPHA", EnvValue.int 5),
       ("GAMMA", EnvValue.str "a b")])
      = [("BETA", EnvValue.bool true), ("ALPHA", EnvValue.int 5),
         ("GAMMA", EnvValue.str "a b")].insertionSort
          (fun a b => a.1 ≤ b.1) ∧
    dictGet (parse_env_content (export_to_env_format
      [("BETA", EnvValue.bool true), ("ALPHA", EnvValue.int 5),
       ("GAMMA", EnvValue.str "a b")])) "ALPHA"
      = dictGet [("BETA", EnvValue.bool true), ("ALPHA", EnvValue.int 5),
         ("GAMMA", EnvValue.str "a b")] "ALPHA" := by
  have h := export_round_trip
    [("BETA", EnvValue.bool true), ("ALPHA", EnvValue.int 5),
     ("GAMMA", EnvValue.str "a b")]
    (by decide) (by decide)
    (by
      intro p hp
      rcases List.mem_cons.mp hp with hq | hp
      · rw [hq]
        exact trivial
      rcases List.mem_cons.mp hp with hq | hp
      · rw [hq]
        exact ⟨by decide, by decide, by decide, by decide⟩
      rcases List.mem_cons.mp hp with hq | hp
      · rw [hq]
        show goodStrVal "a b" = true
        decide
      · exact absurd hp (List.not_mem_nil p))
  exact ⟨h.1, h.2 "ALPHA"⟩

end SimpleEnvs
